import Mathlib

/-!
# tedge-oscar: artifact acquisition and instance deployment

A shallow embedding of the Go sources

* `cmd/instances.go` (`listInstancesCmd.RunE`, `deployCmd.RunE`),
* `cmd/pull.go` (`pullCmd.RunE`),
* `internal/config/config.go` (`Config.FindCredential`),
* `internal/imagepull/load_tarball.go` (`LoadTarballImage`),

followed by the properties proved about them.  Go strings are modelled by
`String`, Go `int` by `Int`, Go maps by association lists read with a
first-match lookup, and effects on the operating system by explicit state.
-/

namespace TedgeOscar

/-! ## Table output of `list`: which columns fit (`cmd/instances.go`, lines 184-219) -/

/-- Go's builtin `len` on a string: its number of bytes. -/
def goLen (s : String) : Int := (s.utf8ByteSize : Int)

/-- The constant `tablePadding` (left + right border). -/
def tablePadding : Int := 2

/-- The constant `columnPadding`. -/
def columnPadding : Int := 2

/-- The value of `maxWidth`: `w - tablePadding` when `terminalSize()` answers `w`,
the fallback `120` when it fails. -/
def maxWidthOf (terminalWidth : Option Int) : Int :=
  match terminalWidth with
  | some w => w - tablePadding
  | none => 120

/-- The first loop: `colWidths[i] = len(colNames[i]) + columnPadding`. -/
def initWidths (colNames : List String) : List Int :=
  colNames.map (fun c => goLen c + columnPadding)

/-- The inner loop over the cells of one row:
`if l := len(cell); l > colWidths[i] { colWidths[i] = l + columnPadding }`.
A row with more cells than there are columns indexes `colWidths` out of range,
which is `none` here. -/
def widenRow : List Int → List String → Option (List Int)
  | ws, [] => some ws
  | [], _ :: _ => none
  | w :: ws, cell :: cells =>
    (widenRow ws cells).map
      (fun rest => (if goLen cell > w then goLen cell + columnPadding else w) :: rest)

/-- The computed column widths after the loop over all rows. -/
def colWidths (colNames : List String) (rows : List (List String)) : Option (List Int) :=
  rows.foldlM widenRow (initWidths colNames)

/-- The starting value of `total`: `len(colNames) - 1` for the separators, plus
every column width. -/
def initialTotal (colNames : List String) (widths : List Int) : Int :=
  widths.foldl (fun total w => total + w) ((colNames.length : Int) - 1)

/-- The loop `for total > maxWidth && keep > 1 { keep--; total -= colWidths[keep] + 1 }`,
by recursion on `keep`; it returns the final `keep`. -/
def shrink (widths : List Int) (maxWidth : Int) : Nat → Int → Nat
  | 0, _ => 0
  | keep + 1, total =>
    if total > maxWidth ∧ keep + 1 > 1 then
      shrink widths maxWidth keep (total - (widths.getD keep 0 + 1))
    else keep + 1

/-- What is handed to the table writer: the header and the rows. -/
structure Table where
  header : List String
  rows : List (List String)
  deriving DecidableEq, Repr

/-- Lines 193-219: compute the widths, drop columns from the right until the
table fits, and cut the header and every row to the first `keep` cells
(`colNames[:keep]`, `row[:keep]`). -/
def fitColumns (colNames : List String) (rows : List (List String)) (maxWidth : Int) :
    Option (Nat × Table) :=
  (colWidths colNames rows).map fun widths =>
    let keep := shrink widths maxWidth colNames.length (initialTotal colNames widths)
    (keep, { header := colNames.take keep, rows := rows.map (List.take keep) })

/-- The total width of the first `k` columns as the claim words it: the sum of
their computed widths plus one separator between adjacent columns. -/
def prefixWidth (widths : List Int) (k : Nat) : Int :=
  (widths.take k).sum + ((k : Int) - 1)

/-! ## `path/filepath` (Go standard library, Unix rules)

`filepath.Join` and `filepath.Clean`, as the standard library documents them:
`Join` drops leading empty elements, joins the rest with `/` and cleans the
result; `Clean` drops empty and `.` elements, lets `..` remove the element before
it, drops `..` at the root and keeps it at the start of a relative path. -/

/-- The Go call `strings.Split(s, "/")` on the characters of a path. -/
def splitSlash : List Char → List (List Char)
  | [] => [[]]
  | c :: cs =>
    if c = '/' then [] :: splitSlash cs
    else
      match splitSlash cs with
      | [] => [[c]]
      | h :: t => (c :: h) :: t

/-- One path element of `filepath.Clean`, applied to the elements kept so far
(the last one first). -/
def cleanStep (rooted : Bool) (stack : List (List Char)) (el : List Char) :
    List (List Char) :=
  if el = [] ∨ el = ['.'] then stack
  else if el = ['.', '.'] then
    match stack with
    | [] => if rooted then [] else [el]
    | top :: rest => if top = ['.', '.'] then el :: stack else rest
  else el :: stack

/-- The elements `filepath.Clean` keeps, in order. -/
def cleanElems (rooted : Bool) (els : List (List Char)) : List (List Char) :=
  (els.foldl (cleanStep rooted) []).reverse

/-- Whether a path starts with `/`. -/
def isRooted (p : List Char) : Bool :=
  match p with
  | '/' :: _ => true
  | _ => false

/-- The Go call `strings.Join(elems, "/")`. -/
def joinSlash : List (List Char) → List Char
  | [] => []
  | [e] => e
  | e :: es => e ++ '/' :: joinSlash es

/-- The path that `filepath.Clean` returns for the elements it keeps: they are
joined with `/` after the root `/` of a rooted path, and a relative path
without elements is `.`. -/
def renderPath (rooted : Bool) (els : List (List Char)) : List Char :=
  if rooted then '/' :: joinSlash els
  else
    match els with
    | [] => ['.']
    | es => joinSlash es

/-- The function `filepath.Clean` on characters. -/
def cleanChars (p : List Char) : List Char :=
  renderPath (isRooted p) (cleanElems (isRooted p) (splitSlash p))

/-- The function `filepath.Clean`. -/
def Clean (path : String) : String := String.mk (cleanChars path.data)

/-- The function `filepath.Join` on characters. -/
def joinChars : List (List Char) → List Char
  | [] => []
  | e :: es => if e = [] then joinChars es else cleanChars (joinSlash (e :: es))

/-- The function `filepath.Join`. -/
def Join (elem : List String) : String := String.mk (joinChars (elem.map String.data))

/-! ## Documents: what `toml.Decode` stores in a `map[string]interface{}` -/

/-- A Go value held in a decoded document: the scalars of TOML, the `[]string`
of the command line, the `*string` of the fallback document, a
`map[string]interface{}`, a `[]map[string]interface{}` (an element `none` is a
nil map), the nil `[]map[string]interface{}`, and a `[]interface{}`. -/
inductive Value where
  | str (s : String)
  | int (i : Int)
  | float (repr : String)
  | bool (b : Bool)
  | datetime (repr : String)
  | strs (ss : List String)
  | strPtr (p : Option String)
  | table (m : List (String × Value))
  | tables (ms : List (Option (List (String × Value))))
  | nilTables
  | list (vs : List Value)

/-- A `map[string]interface{}`: keys with their values, read by first match. -/
abbrev Doc := List (String × Value)

/-- The Go read `m[k]` with its `ok` flag. -/
def get {β : Type} : List (String × β) → String → Option β
  | [], _ => none
  | (k', v) :: rest, k => if k' = k then some v else get rest k

/-- The Go assignment `m[k] = v`. -/
def set {β : Type} : List (String × β) → String → β → List (String × β)
  | [], k, v => [(k, v)]
  | (k', v') :: rest, k, v => if k' = k then (k, v) :: rest else (k', v') :: set rest k v

/-- Modelled from the spec: `maputil.SetNestedMapValue` (package `pkg/maputil` is
not among the sources).  The spec: "set the nested key path `input.mqtt.topics`
to the given list, creating intermediate mapping levels as needed and
overwriting any prior value at that path".  The call returns an error, which
`deploy` reports as "failed to set input.mqtt.topics"; here it does so for an
empty key path and when a level before the last holds a value that is not a
mapping. -/
def SetNestedMapValue : Doc → List String → Value → Except String Doc
  | _, [], _ => .error "no keys"
  | m, [k], v => .ok (set m k v)
  | m, k :: k2 :: ks, v =>
    match get m k with
    | none =>
      (SetNestedMapValue [] (k2 :: ks) v).map (fun sub => set m k (.table sub))
    | some (.table sub) =>
      (SetNestedMapValue sub (k2 :: ks) v).map (fun sub' => set m k (.table sub'))
    | some _ => .error ("key " ++ k ++ " is not a map")

/-- The value found by descending from a document through tables along a key path. -/
def getPath : Doc → List String → Option Value
  | _, [] => none
  | m, [k] => get m k
  | m, k :: k2 :: ks =>
    match get m k with
    | some (.table sub) => getPath sub (k2 :: ks)
    | _ => none

/-! ## `deploy`: the template merge (`cmd/instances.go`, lines 345-377) -/

/-- The body of both step loops: `stepMap["script"] = scriptPath` and, when
`interval != ""`, `stepMap["interval"] = interval`. -/
def updateStep (scriptPath interval : String) (stepMap : Doc) : Doc :=
  let stepMap := set stepMap "script" (.str scriptPath)
  if interval ≠ "" then set stepMap "interval" (.str interval) else stepMap

/-- The loop of `case []map[string]interface{}`: every map is updated in place;
writing into a nil map panics. -/
def updateTables (scriptPath interval : String) :
    List (Option Doc) → Except String (List (Option Doc))
  | [] => .ok []
  | none :: _ => .error "panic: assignment to entry in nil map"
  | some stepMap :: rest =>
    (updateTables scriptPath interval rest).map
      (fun rest' => some (updateStep scriptPath interval stepMap) :: rest')

/-- One element of the loop of `case []interface{}`: a `map[string]interface{}`
is updated and stored, any other element leaves `newSteps[i]` a nil map. -/
def updateGeneric (scriptPath interval : String) : Value → Option Doc
  | .table stageMap => some (updateStep scriptPath interval stageMap)
  | _ => none

/-- The type switch on `stepsRaw` (lines 353-375), giving `newSteps`: a slice
made with the length of the list in the two cases, and the nil slice that
`var newSteps` declares when `stepsRaw` is of any other type. -/
def newSteps (scriptPath interval : String) : Value → Except String Value
  | .tables steps => (updateTables scriptPath interval steps).map Value.tables
  | .list steps => .ok (.tables (steps.map (updateGeneric scriptPath interval)))
  | _ => .ok .nilTables

/-- Lines 345-377: the document handed to the encoder in the template branch,
from the decoded template `m`. -/
def mergeTemplate (m : Doc) (topics : List String) (scriptPath interval : String) :
    Except String Doc :=
  let withTopics : Except String Doc :=
    if topics.length > 0 then
      match SetNestedMapValue m ["input", "mqtt", "topics"] (.strs topics) with
      | .ok m' => .ok m'
      | .error e => .error ("failed to set input.mqtt.topics: " ++ e)
    else .ok m
  match withTopics with
  | .error e => .error e
  | .ok m =>
    match get m "steps" with
    | none => .ok m
    | some stepsRaw =>
      match newSteps scriptPath interval stepsRaw with
      | .error e => .error e
      | .ok steps => .ok (set m "steps" steps)

/-- Lines 389-406: the document handed to the encoder in the fallback branch. -/
def minimalDoc (topics : List String) (scriptPath interval : String) : Except String Doc :=
  let intervalPtr : Option String := if interval ≠ "" then some interval else none
  let data : Doc :=
    [("steps", .tables [some [("script", .str scriptPath), ("interval", .strPtr intervalPtr)]])]
  if topics.length > 0 then
    match SetNestedMapValue data ["input", "mqtt", "topics"] (.strs topics) with
    | .ok data' => .ok data'
    | .error e => .error ("failed to set input.mqtt.topics: " ++ e)
  else .ok data

/-- Whether a value is an array with a nil element, which the TOML encoder
refuses. -/
def nilElement : Value → Bool
  | .tables ms => ms.any Option.isNone
  | _ => false

/-- Whether a top-level value of the document is an array with a nil element.
The decoder builds no nil element; the merge stores one only in the top-level
`steps`. -/
def hasNilElement (doc : Doc) : Bool := doc.any (fun kv => nilElement kv.2)

/-- What C11 says of one written step: it is a map whose `script` is the
entrypoint and whose `interval` is the override when one was supplied. -/
def StepOverwritten (scriptPath interval : String) (step : Option Doc) : Prop :=
  ∃ t, step = some t ∧ get t "script" = some (.str scriptPath) ∧
    (interval ≠ "" → get t "interval" = some (.str interval))

/-- The elements of a template's step list in either decoded form, `none` when
the `steps` entry is not a list. -/
def stepValues : Value → Option (List Value)
  | .tables ms => some (ms.map (fun o => match o with
      | some t => Value.table t
      | none => Value.table []))
  | .list vs => some vs
  | _ => none

/-- What C12 says of one element of the template's step list and the step
written for it: the element is a table, and the written step has the same value
at every key other than `script` and, when an override was supplied, `interval`. -/
def StepKept (interval : String) (old : Value) (new : Option Doc) : Prop :=
  ∃ t t', old = .table t ∧ new = some t' ∧
    ∀ k, k ≠ "script" → (k = "interval" → interval = "") → get t' k = get t k

/-! ## `LoadTarballImage` (`internal/imagepull/load_tarball.go`) -/

/-- File contents. -/
abbrev Bytes := List UInt8

/-- The files present, by path, with their contents. -/
abbrev Files := List (String × Bytes)

/-- One entry of the tar stream as `tr.Next()` and `tr` give it: the header's
`Typeflag` and `Name`, and the entry's data. -/
structure Entry where
  Typeflag : Char
  Name : String
  Data : Bytes
  deriving DecidableEq, Repr

/-- The constant `tar.TypeReg`. -/
def TypeReg : Char := '0'

/-- The constant `tar.TypeDir`. -/
def TypeDir : Char := '5'

/-- The tar stream behind `tr`: its entries, and the error `tr.Next()` returns
after them (`none` for `io.EOF`). -/
structure TarStream where
  entries : List Entry
  readErr : Option String
  deriving DecidableEq, Repr

/-- The calls the operating system refuses, given the files present: whether
`os.MkdirAll` and `os.Create` fail for a path, and, when `io.Copy` fails, the
bytes it had written. -/
structure Faults where
  MkdirAll : Files → String → Bool
  Create : Files → String → Bool
  Copy : Files → String → Bytes → Option Bytes

/-- An operating system that refuses nothing. -/
def noFaults : Faults :=
  { MkdirAll := fun _ _ => false, Create := fun _ _ => false, Copy := fun _ _ _ => none }

/-- The Go call `strings.Contains(name, "..")` on characters. -/
def containsDotDot : List Char → Bool
  | [] => false
  | [_] => false
  | c :: d :: rest => (c = '.' ∧ d = '.') || containsDotDot (d :: rest)

/-- The path up to and including its last `/` (the scan of `filepath.Dir`). -/
def dirPrefix : List Char → List Char
  | [] => []
  | c :: cs =>
    if '/' ∈ cs then c :: dirPrefix cs
    else if c = '/' then [c] else []

/-- The function `filepath.Dir`. -/
def Dir (path : String) : String := String.mk (cleanChars (dirPrefix path.data))

/-- The body of the extraction loop for one entry (lines 55-74): the files
afterwards and the error returned, `none` when the loop goes on. -/
def extractEntry (os : Faults) (outputDir : String) (fs : Files) (hdr : Entry) :
    Files × Option String :=
  if hdr.Typeflag ≠ TypeReg then (fs, none)
  else if containsDotDot hdr.Name.data then (fs, none)
  else
    let outPath := Join [outputDir, hdr.Name]
    if os.MkdirAll fs (Dir outPath) then (fs, some "failed to create directory")
    else if os.Create fs outPath then (fs, some "failed to create file")
    else
      let fs := set fs outPath []
      match os.Copy fs outPath hdr.Data with
      | some written => (set fs outPath written, some "failed to extract file")
      | none => (set fs outPath hdr.Data, none)

/-- The extraction loop (lines 47-76) over the entries `tr.Next()` yields. -/
def extract (os : Faults) (outputDir : String) (readErr : Option String) :
    Files → List Entry → Files × Option String
  | fs, [] => (fs, readErr.map (fun e => "error reading tarball: " ++ e))
  | fs, hdr :: rest =>
    match extractEntry os outputDir fs hdr with
    | (fs', some e) => (fs', some e)
    | (fs', none) => extract os outputDir readErr fs' rest

/-- The function `LoadTarballImage`: `opened` is the outcome of lines 17-44
(download or open of `source`, gzip reader), which write nothing; the result is
the files afterwards and the error returned (`none` for `nil`). -/
def LoadTarballImage (os : Faults) (opened : Except String TarStream) (outputDir : String)
    (fs : Files) : Files × Option String :=
  match opened with
  | .error e => (fs, some e)
  | .ok tr => extract os outputDir tr.readErr fs tr.entries

/-- A path lies inside a directory: it is the cleaned directory followed by
further path elements, none of them empty, `.` or `..` and none holding a `/`. -/
def Inside (dir path : String) : Prop :=
  ∃ more : List (List Char),
    (∀ el ∈ more, el ≠ [] ∧ el ≠ ['.'] ∧ el ≠ ['.', '.'] ∧ '/' ∉ el) ∧
    (Clean dir).data =
      renderPath (isRooted dir.data) (cleanElems (isRooted dir.data) (splitSlash dir.data)) ∧
    path.data =
      renderPath (isRooted dir.data)
        (cleanElems (isRooted dir.data) (splitSlash dir.data) ++ more)

/-- Whether a name has a path element equal to `..`. -/
abbrev hasDotDotElem (name : String) : Prop := ['.', '.'] ∈ splitSlash name.data

/-! ## `deploy` (`cmd/instances.go`, lines 273-418) and `pull` (`cmd/pull.go`) -/

/-- The type `config.RegistryCredential`. -/
structure RegistryCredential where
  Registry : String
  Username : String
  Password : String
  deriving DecidableEq, Repr

/-- The type `config.Config`. -/
structure Config where
  ImageDir : String
  DeployDir : String
  Registries : List RegistryCredential
  UnexpandedImageDir : String
  UnexpandedDeployDir : String
  deriving DecidableEq, Repr

/-- A file store: the directories and the files present, by path, and the paths
that may not be examined (permission denied). -/
structure FS where
  dirs : List String
  files : Files
  denied : List String := []
  deriving DecidableEq, Repr

/-- The error of `os.Stat`: none, one for which `os.IsNotExist` holds (ENOENT),
or another one (ENOTDIR, EACCES). -/
inductive StatResult where
  | ok
  | notExist
  | otherErr
  deriving DecidableEq, Repr

/-- The test `err == nil` on the error of `os.Stat`. -/
def StatResult.errIsNil : StatResult → Bool
  | .ok => true
  | _ => false

/-- The function `os.IsNotExist` on the error of `os.Stat`. -/
def IsNotExist : StatResult → Bool
  | .notExist => true
  | _ => false

/-- Whether a regular file of the store is a proper ancestor of the path. -/
def FS.underFile (fs : FS) (path : String) : Bool :=
  fs.files.any (fun kv => (kv.1.data ++ ['/']).isPrefixOf path.data)

/-- The call `os.Stat(path)`: the empty path does not exist; a path that may not
be examined, or that lies under a regular file (ENOTDIR), gives an error other
than not-exist; otherwise the path exists when it names a directory or a file. -/
def FS.Stat (fs : FS) (path : String) : StatResult :=
  if path = "" then .notExist
  else if fs.denied.contains path || fs.underFile path then .otherErr
  else if fs.dirs.contains path || (get fs.files path).isSome then .ok
  else .notExist

/-- The image cache and the deploy location, two separate stores. -/
structure World where
  images : FS
  deploy : FS
  deriving DecidableEq, Repr

/-- Where `deploy` gave up. -/
inductive DeployError where
  | deployDir (msg : String)
  | mkdirAll (msg : String)
  | invalidReference (msg : String)
  | pull (msg : String)
  | missingEntrypoint (scriptPath : String)
  | parseTemplate (msg : String)
  | merge (msg : String)
  | create (msg : String)
  | encode (msg : String)
  deriving DecidableEq, Repr

/-- The collaborators of `deploy` and `pull` that are not among the sources:
`text/template` behind `Config.GetDeployDir`, `artifact.ParseName(ref, false)`,
`imagepull.PullImage(cfg, ref, outputDir, tarballPath, cacheDisabled)` acting on
the image cache, the TOML decoder, the bytes the TOML encoder writes for a
document without nil element (or its error), and the failures of `os.MkdirAll`
and `os.Create`. -/
structure Env where
  evaluateTemplate : String → String → Except String String
  ParseName : String → Except String String
  PullImage : Config → String → String → String → Bool → FS → FS × Option String
  Decode : Bytes → Except String Doc
  Encode : Doc → Except String Bytes
  MkdirAllFails : FS → String → Bool
  CreateFails : FS → String → Bool

/-- The method `Config.GetDeployDir`. -/
def Config.GetDeployDir (env : Env) (c : Config) (mapper : String) : Except String String :=
  env.evaluateTemplate c.DeployDir mapper

/-- The call `os.MkdirAll(path, 0755)`: on success the directory exists (its
parents are not recorded). -/
def MkdirAll (env : Env) (fs : FS) (path : String) : Except String FS :=
  if env.MkdirAllFails fs path then .error ("mkdir " ++ path)
  else .ok { fs with dirs := if fs.dirs.contains path then fs.dirs else fs.dirs ++ [path] }

/-- The call `toml.DecodeFile(path, &m)`. -/
def DecodeFile (env : Env) (fs : FS) (path : String) : Except String Doc :=
  match get fs.files path with
  | none => .error ("open " ++ path)
  | some bytes => env.Decode bytes

/-- Lines 331-338: the first of `flow.toml`, `pipeline.toml` that exists in the
artifact directory, `""` when neither does. -/
def findTemplate (images : FS) (imagePath : String) : String :=
  if (images.Stat (Join [imagePath, "flow.toml"])).errIsNil then Join [imagePath, "flow.toml"]
  else if (images.Stat (Join [imagePath, "pipeline.toml"])).errIsNil then
    Join [imagePath, "pipeline.toml"]
  else ""

/-- Lines 339-350 and 388-406: the document to write, from the template when
there is one and the minimal document otherwise. -/
def buildDocument (env : Env) (images : FS) (imagePath scriptPath : String)
    (topics : List String) (interval : String) : Except DeployError Doc :=
  let imageFlowDefinitionPath := findTemplate images imagePath
  if (images.Stat imageFlowDefinitionPath).errIsNil then
    match DecodeFile env images imageFlowDefinitionPath with
    | .error e => .error (.parseTemplate e)
    | .ok m =>
      match mergeTemplate m topics scriptPath interval with
      | .error e => .error (.merge e)
      | .ok m' => .ok m'
  else
    match minimalDoc topics scriptPath interval with
    | .error e => .error (.merge e)
    | .ok data => .ok data

/-- The call `toml.NewEncoder(f).Encode(doc)`: the encoder refuses an array with
a nil element and writes nothing then. -/
def encodeDocument (env : Env) (doc : Doc) : Except String Bytes :=
  if hasNilElement doc then .error "toml: cannot encode array with nil element"
  else env.Encode doc

/-- Lines 378-385 and 407-414: `os.Create(tomlPath)` truncates the file, then the
encoder writes the document; when encoding fails the file stays truncated. -/
def writeInstance (env : Env) (w : World) (tomlPath : String) (doc : Doc) :
    World × Option DeployError :=
  if env.CreateFails w.deploy tomlPath then (w, some (.create tomlPath))
  else
    let truncated : FS := { w.deploy with files := set w.deploy.files tomlPath [] }
    match encodeDocument env doc with
    | .error e => ({ w with deploy := truncated }, some (.encode e))
    | .ok bytes =>
      ({ w with deploy := { truncated with files := set truncated.files tomlPath bytes } }, none)

/-- Lines 317-322: when `os.Stat(imagePath)` gives an error for which
`os.IsNotExist` holds, the call
`imagepull.PullImage(cfg, imageRef, cfg.ImageDir, "", false)`. -/
def pullIfMissing (env : Env) (cfg : Config) (imageRef imagePath : String) (w : World) :
    World × Option DeployError :=
  if IsNotExist (w.images.Stat imagePath) then
    match env.PullImage cfg imageRef cfg.ImageDir "" false w.images with
    | (images, some e) => ({ w with images := images }, some (.pull e))
    | (images, none) => ({ w with images := images }, none)
  else (w, none)

/-- The command `deployCmd.RunE` after the configuration and the flags are read:
the world afterwards and the error returned (`none` for `nil`). -/
def deploy (env : Env) (cfg : Config) (instanceName imageRef : String) (topics : List String)
    (interval mapper : String) (w : World) : World × Option DeployError :=
  match cfg.GetDeployDir env mapper with
  | .error e => (w, some (.deployDir e))
  | .ok deployDir =>
    match MkdirAll env w.deploy deployDir with
    | .error e => (w, some (.mkdirAll e))
    | .ok dfs =>
      let w : World := { w with deploy := dfs }
      match env.ParseName imageRef with
      | .error e => (w, some (.invalidReference e))
      | .ok name =>
        let imagePath := Join [cfg.ImageDir, name]
        let scriptPath := Join [imagePath, "lib/main.js"]
        match pullIfMissing env cfg imageRef imagePath w with
        | (w, some e) => (w, some e)
        | (w, none) =>
          if IsNotExist (w.images.Stat scriptPath) then
            (w, some (.missingEntrypoint scriptPath))
          else
            let tomlPath := Join [deployDir, instanceName ++ ".toml"]
            match buildDocument env w.images imagePath scriptPath topics interval with
            | .error e => (w, some e)
            | .ok doc => writeInstance env w tomlPath doc

/-- The command `pullCmd.RunE` after the configuration and the flags are read
(lines 34-49): the output directory and the tarball path handed to `PullImage`. -/
def pullTarget (env : Env) (cfg : Config) (imageRef outputDirFlag : String)
    (saveAsTarball : Bool) : Except String (String × String) :=
  match env.ParseName imageRef with
  | .error e => .error e
  | .ok name =>
    let outputDir := if outputDirFlag = "" then Join [cfg.ImageDir, name] else outputDirFlag
    let tarballPath := if saveAsTarball then Join [Dir outputDir, name ++ ".tar"] else ""
    .ok (outputDir, tarballPath)

/-- The command `pullCmd.RunE`: the image cache afterwards and the error returned. -/
def pull (env : Env) (cfg : Config) (imageRef outputDirFlag : String) (saveAsTarball : Bool)
    (images : FS) : FS × Option String :=
  match pullTarget env cfg imageRef outputDirFlag saveAsTarball with
  | .error e => (images, some e)
  | .ok (outputDir, tarballPath) => env.PullImage cfg imageRef outputDir tarballPath false images

/-- What the TOML encoder writes for a value of a map: nothing for a nil pointer
and for a nil slice (the key is left out), the string a pointer points to, the
value itself otherwise. -/
def encoded : Value → Option Value
  | .strPtr none => none
  | .nilTables => none
  | .strPtr (some s) => some (.str s)
  | v => some v

/-- The value the written document has at a key of a map. -/
def field (m : Doc) (k : String) : Option Value := (get m k).bind encoded

/-! ## `Config.FindCredential` (`internal/config/config.go`, lines 129-158) -/

/-- What a credential store answers for a host: a username, a password, and
whether the call returned an error. -/
structure StoreResult where
  Username : String
  Password : String
  err : Bool
  deriving DecidableEq, Repr

/-- The two credential stores, which are not among the sources:
`LoadDockerCredentials(registry)`, and the ORAS store, `none` when
`credentials.NewStore` returns an error and otherwise its `Get`. -/
structure CredentialStores where
  LoadDockerCredentials : String → StoreResult
  NewStore : Option (String → StoreResult)

/-- The test both probes apply: `err == nil && username != "" && password != ""`. -/
def StoreResult.hit (r : StoreResult) : Bool :=
  !r.err && r.Username != "" && r.Password != ""

/-- The loop over `c.Registries` (lines 152-156): the first entry whose
`Registry` equals the host. -/
def findInRegistries : List RegistryCredential → String → Option RegistryCredential
  | [], _ => none
  | cred :: rest, registry =>
    if cred.Registry = registry then some cred else findInRegistries rest registry

/-- The method `Config.FindCredential`; `none` is the nil pointer. -/
def Config.FindCredential (stores : CredentialStores) (c : Config) (registry : String) :
    Option RegistryCredential :=
  let docker := stores.LoadDockerCredentials registry
  if docker.hit then
    some { Registry := registry, Username := docker.Username, Password := docker.Password }
  else
    let fromConfig := findInRegistries c.Registries registry
    match stores.NewStore with
    | none => fromConfig
    | some credStoreGet =>
      let cred := credStoreGet registry
      if cred.hit then
        some { Registry := registry, Username := cred.Username, Password := cred.Password }
      else fromConfig

/-! ## `list` (`cmd/instances.go`, lines 85-161) -/

/-- A directory entry as `os.ReadDir` gives it. -/
structure DirEntry where
  Name : String
  IsDir : Bool
  deriving DecidableEq, Repr

/-- Modelled from the spec: the type `flows.InstanceFile` (package
`pkg/types/flows` is not among the sources), with what `list` reads of it: the
`script` of every entry of the top-level `steps`, and the nested
`input.mqtt.topics`. -/
structure InstanceFile where
  Steps : List String
  Topics : List String
  deriving DecidableEq, Repr

/-- The collaborators of `list` that are not among the sources: the decoding of
an instance file (`none` when `toml.DecodeFile` returns an error),
`filepath.Rel`, the version annotation read from a `manifest.json` (`none` when
the file does not open or decode or has no such string), and
`artifact.TrimVersion`. -/
structure ListEnv where
  DecodeFile : String → Option InstanceFile
  Rel : String → String → Option String
  manifestVersion : String → Option String
  TrimVersion : String → String

/-- The function `strings.HasSuffix`. -/
def HasSuffix (s suffix : String) : Bool := suffix.data.isSuffixOf s.data

/-- The function `strings.HasPrefix`. -/
def HasPrefix (s pre : String) : Bool := pre.data.isPrefixOf s.data

/-- The function `strings.TrimSuffix`. -/
def TrimSuffix (s suffix : String) : String :=
  if HasSuffix s suffix then String.mk (s.data.take (s.data.length - suffix.data.length)) else s

/-- The function `filepath.Base`. -/
def Base (path : String) : String :=
  if path = "" then "."
  else
    let stripped := (path.data.reverse.dropWhile (fun c => c = '/')).reverse
    let last := (stripped.reverse.takeWhile (fun c => c ≠ '/')).reverse
    if last = [] then "/" else String.mk last

/-- The five values of one row (the map `rowMap`). -/
structure Row where
  name : String
  path : String
  topics : String
  image : String
  imageVersion : String
  deriving DecidableEq, Repr

/-- The read `rowMap[col]`: the empty string for a key that is not in the map. -/
def Row.cell (r : Row) (col : String) : String :=
  if col = "name" then r.name
  else if col = "path" then r.path
  else if col = "topics" then r.topics
  else if col = "image" then r.image
  else if col = "imageVersion" then r.imageVersion
  else ""

/-- Lines 86-89: the deploy directory as displayed. -/
def unexpandedDeployDir (cfg : Config) : String :=
  if cfg.UnexpandedDeployDir = "" then "$DEPLOY_DIR" else cfg.UnexpandedDeployDir

/-- Lines 91-94: the image directory as displayed. -/
def unexpandedImageDir (cfg : Config) : String :=
  if cfg.UnexpandedImageDir = "" then "$IMAGE_DIR" else cfg.UnexpandedImageDir

/-- Lines 108-117: the variable `image` when the file decoded with a first step
whose script is `script`. -/
def imageOf (env : ListEnv) (cfg : Config) (script : String) : String :=
  if HasPrefix script cfg.ImageDir && unexpandedImageDir cfg != "" then
    match env.Rel cfg.ImageDir script with
    | some rel => Join [unexpandedImageDir cfg, rel]
    | none => script
  else script

/-- Lines 118-137: the variable `imageVersion` when the file decoded with a
first step whose script is `script`. -/
def imageVersionOf (env : ListEnv) (cfg : Config) (script : String) : String :=
  let manifestPath :=
    if HasPrefix script cfg.ImageDir then Join [Dir (Dir script), "manifest.json"] else ""
  if manifestPath ≠ "" then
    match env.manifestVersion manifestPath with
    | some v => v
    | none => "<unknown>"
  else "<unknown>"

/-- Lines 139-147: the variable `imageName`. -/
def imageNameOf (env : ListEnv) (image script : String) : String :=
  if image ≠ "<invalid>" then
    let imgDir := Base (Dir (Dir script))
    if imgDir ≠ "." ∧ imgDir ≠ "/" ∧ imgDir ≠ "" then env.TrimVersion imgDir else "<invalid>"
  else "<invalid>"

/-- Lines 101-155: the map `rowMap` of one candidate file. -/
def instanceRow (env : ListEnv) (cfg : Config) (deployDir : String) (file : DirEntry) : Row :=
  let name := TrimSuffix file.Name ".toml"
  let path := Join [unexpandedDeployDir cfg, file.Name]
  match env.DecodeFile (Join [deployDir, file.Name]) with
  | some { Steps := script :: _, Topics := topics } =>
    let image := imageOf env cfg script
    { name := name, path := path, topics := String.intercalate ", " topics,
      image := imageNameOf env image script,
      imageVersion := imageVersionOf env cfg script }
  | _ =>
    { name := name, path := path, topics := "", image := "<invalid>",
      imageVersion := "<unknown>" }

/-- Lines 96-161: the loop over the directory entries, giving `rows`. -/
def listRows (env : ListEnv) (cfg : Config) (deployDir : String) (colNames : List String) :
    List DirEntry → List (List String)
  | [] => []
  | file :: files =>
    if file.IsDir || !HasSuffix file.Name ".toml" then
      listRows env cfg deployDir colNames files
    else
      colNames.map (instanceRow env cfg deployDir file).cell ::
        listRows env cfg deployDir colNames files

/-- The default of `colNames` (line 57). -/
def defaultColNames : List String := ["name", "path", "topics", "image", "imageVersion"]

/-- An example of `ListEnv`: `/deploy/good.toml` decodes, every other file does not. -/
def exampleListEnv : ListEnv :=
  { DecodeFile := fun path =>
      if path = "/deploy/good.toml" then
        some { Steps := ["/images/counter/lib/main.js"], Topics := ["a/b", "c/d"] }
      else none
    Rel := fun _ _ => none
    manifestVersion := fun path => if path = "/images/counter/manifest.json" then some "1.0" else none
    TrimVersion := fun s => s }

/-! ## Example inputs -/

/-- A template with an input section and one step. -/
def exampleTemplate : Doc :=
  [("title", .str "t"),
    ("input", .table [("mqtt", .table [("topics", .list [.str "x/y"])])]),
    ("steps", .tables [some [("script", .str "main.js")]])]

/-- An environment in which nothing fails: every reference names the artifact
`counter`, a pull materializes `lib/main.js` into the output directory it is
given, the bytes `[1]` decode to `exampleTemplate`, and a document encodes to one
byte per top-level key that the encoder writes. -/
def exampleEnv : Env :=
  { evaluateTemplate := fun v _ => .ok v
    ParseName := fun _ => .ok "counter"
    PullImage := fun _ _ outputDir _ _ fs =>
      ({ dirs := fs.dirs ++ [outputDir],
         files := set fs.files (Join [outputDir, "lib/main.js"]) [0] }, none)
    Decode := fun b => if b = [1] then .ok exampleTemplate else .error "invalid"
    Encode := fun doc => .ok (doc.filterMap (fun kv => (encoded kv.2).map (fun _ => 2)))
    MkdirAllFails := fun _ _ => false
    CreateFails := fun _ _ => false }

/-- An environment like `exampleEnv` in which no reference is valid. -/
def invalidRefEnv : Env := { exampleEnv with ParseName := fun _ => .error "invalid reference" }

/-- A configuration with the image cache at `/images`. -/
def exampleConfig : Config :=
  { ImageDir := "/images", DeployDir := "/deploy", Registries := [],
    UnexpandedImageDir := "/images", UnexpandedDeployDir := "/deploy" }

/-- An image cache holding the artifact `counter` with a bundled `flow.toml`. -/
def templateImages : FS :=
  { dirs := ["/images", "/images/counter"],
    files := [("/images/counter/lib/main.js", [0]), ("/images/counter/flow.toml", [1])] }

/-- An image cache holding the artifact `counter` without a bundled template. -/
def plainImages : FS :=
  { dirs := ["/images", "/images/counter"], files := [("/images/counter/lib/main.js", [0])] }

/-- An image cache in which `/images/counter/lib` is a regular file, so that
`os.Stat` of the entrypoint fails with ENOTDIR. -/
def libFileImages : FS :=
  { dirs := ["/images", "/images/counter"], files := [("/images/counter/lib", [0])] }

/-- An image cache in which `/images/counter` itself is a regular file. -/
def artifactFileImages : FS :=
  { dirs := ["/images"], files := [("/images/counter", [0])] }

/-- An image cache holding the artifact `counter` with a bundled `pipeline.toml`. -/
def pipelineImages : FS :=
  { dirs := ["/images", "/images/counter"],
    files := [("/images/counter/lib/main.js", [0]), ("/images/counter/pipeline.toml", [1])] }

/-- The template `steps = [{script = "main.js"}, 7]`: a generic list whose second
element is not a table. -/
def genericStepsTemplate : Doc :=
  [("steps", .list [.table [("script", .str "main.js")], .int 7])]

/-- An environment like `exampleEnv` in which every template decodes to
`genericStepsTemplate`. -/
def genericStepsEnv : Env := { exampleEnv with Decode := fun _ => .ok genericStepsTemplate }

/-- The template `steps = "x"`, `keep = 1`: a `steps` entry that is not a list. -/
def scalarStepsTemplate : Doc := [("steps", .str "x"), ("keep", .int 1)]

/-- An environment like `exampleEnv` in which every template decodes to
`scalarStepsTemplate`. -/
def scalarStepsEnv : Env := { exampleEnv with Decode := fun _ => .ok scalarStepsTemplate }

/-- A store with nothing in it. -/
def emptyFS : FS := { dirs := [], files := [] }

/-! ## Theorems -/

theorem widenRow_length (ws : List Int) (cells : List String) (h : cells.length = ws.length) :
    ∃ ws', widenRow ws cells = some ws' ∧ ws'.length = ws.length := by
  induction ws generalizing cells with
  | nil =>
    cases cells with
    | nil => exact ⟨[], rfl, rfl⟩
    | cons c cs => simp at h
  | cons w ws ih =>
    cases cells with
    | nil => simp at h
    | cons c cs =>
      obtain ⟨r, hr, hl⟩ := ih cs (by simpa using h)
      exact ⟨(if goLen c > w then goLen c + columnPadding else w) :: r,
        by simp [widenRow, hr], by simp [hl]⟩

theorem colWidths_length_aux (rows : List (List String)) (ws : List Int)
    (h : ∀ r ∈ rows, r.length = ws.length) :
    ∃ ws', rows.foldlM widenRow ws = some ws' ∧ ws'.length = ws.length := by
  induction rows generalizing ws with
  | nil => exact ⟨ws, rfl, rfl⟩
  | cons r rs ih =>
    obtain ⟨w1, h1, l1⟩ := widenRow_length ws r (h r (by simp))
    obtain ⟨w2, h2, l2⟩ := ih w1 (fun r' hr' => by rw [l1]; exact h r' (by simp [hr']))
    exact ⟨w2, by simp [List.foldlM, h1, h2], by rw [l2, l1]⟩

theorem initialTotal_eq (colNames : List String) (widths : List Int)
    (h : widths.length = colNames.length) :
    initialTotal colNames widths = prefixWidth widths colNames.length := by
  unfold initialTotal prefixWidth
  rw [← h, List.take_length]
  have : ∀ (l : List Int) (a : Int), l.foldl (fun total w => total + w) a = l.sum + a := by
    intro l
    induction l with
    | nil => intro a; simp
    | cons x xs ih => intro a; simp [ih]; ring
  rw [this]

theorem prefixWidth_succ (widths : List Int) (k : Nat) (h : k < widths.length) :
    prefixWidth widths (k + 1) - (widths.getD k 0 + 1) = prefixWidth widths k := by
  unfold prefixWidth
  rw [List.sum_take_succ widths k h, List.getD_eq_getElem widths 0 h]
  push_cast
  ring

theorem shrink_spec (widths : List Int) (maxWidth : Int) (keep : Nat)
    (h1 : 1 ≤ keep) (hle : keep ≤ widths.length) :
    1 ≤ shrink widths maxWidth keep (prefixWidth widths keep) ∧
    shrink widths maxWidth keep (prefixWidth widths keep) ≤ keep ∧
    (prefixWidth widths (shrink widths maxWidth keep (prefixWidth widths keep)) ≤ maxWidth ∨
      shrink widths maxWidth keep (prefixWidth widths keep) = 1) ∧
    ∀ j, shrink widths maxWidth keep (prefixWidth widths keep) < j → j ≤ keep →
      maxWidth < prefixWidth widths j := by
  induction keep with
  | zero => omega
  | succ n ih =>
    unfold shrink
    by_cases hc : prefixWidth widths (n + 1) > maxWidth ∧ n + 1 > 1
    · rw [if_pos hc, prefixWidth_succ widths n (by omega)]
      obtain ⟨a, b, c, d⟩ := ih (by omega) (by omega)
      refine ⟨a, by omega, c, ?_⟩
      intro j hj hjn
      by_cases hjeq : j = n + 1
      · subst hjeq; exact hc.1
      · exact d j hj (by omega)
    · rw [if_neg hc]
      refine ⟨by omega, le_refl _, ?_, ?_⟩
      · by_cases hw : prefixWidth widths (n + 1) > maxWidth
        · right
          have : ¬ (n + 1 > 1) := fun h => hc ⟨hw, h⟩
          omega
        · left; omega
      · intro j hj hjn; omega

/-! ### `filepath.Join` on the examples of its documentation and of this development -/

theorem Join_examples :
    Join ["a", "b", "c"] = "a/b/c" ∧ Join ["a", "b/c"] = "a/b/c" ∧ Join ["a/b", "c"] = "a/b/c" ∧
    Join ["a/b", "/c"] = "a/b/c" ∧ Join ["a/b", "../../../xyz"] = "../xyz" ∧
    Join ["", ""] = "" ∧ Join ["a", ""] = "a" ∧ Join ["", "a"] = "a" ∧
    Join ["/images", "counter"] = "/images/counter" ∧
    Join ["/images/counter", "lib/main.js"] = "/images/counter/lib/main.js" ∧
    Join ["/", "../a/./b//c/.."] = "/a/b" := by
  decide


/-! ### Maps and nested paths -/

theorem get_set_same {β : Type} (m : List (String × β)) (k : String) (v : β) :
    get (set m k v) k = some v := by
  induction m with
  | nil => simp [set, get]
  | cons kv rest ih =>
    obtain ⟨k', v'⟩ := kv
    by_cases h : k' = k
    · simp [set, get, h]
    · simp [set, get, h, ih]

theorem get_set_ne {β : Type} (m : List (String × β)) (k k' : String) (v : β)
    (h : k' ≠ k) : get (set m k v) k' = get m k' := by
  induction m with
  | nil => simp [set, get, Ne.symm h]
  | cons kv rest ih =>
    obtain ⟨k0, v0⟩ := kv
    by_cases h0 : k0 = k
    · subst h0
      simp [set, get, Ne.symm h]
    · by_cases h1 : k0 = k'
      · subst h1
        simp [set, get, h0]
      · simp [set, get, h0, h1, ih]

theorem getPath_nil (q : List String) : getPath [] q = none := by
  match q with
  | [] => rfl
  | [_] => rfl
  | _ :: _ :: _ => rfl

theorem getPath_congr_head (m m' : Doc) (k : String) (qs : List String)
    (h : get m' k = get m k) : getPath m' (k :: qs) = getPath m (k :: qs) := by
  cases qs with
  | nil => simpa [getPath] using h
  | cons k2 ks => simp [getPath, h]

theorem SetNestedMapValue_get_ne (path : List String) (m m' : Doc) (k k' : String)
    (v : Value) (h : SetNestedMapValue m (k :: path) v = .ok m') (hk : k' ≠ k) :
    get m' k' = get m k' := by
  cases path with
  | nil =>
    simp only [SetNestedMapValue, Except.ok.injEq] at h
    subst h
    exact get_set_ne m k k' v hk
  | cons k2 ks =>
    simp only [SetNestedMapValue] at h
    split at h
    · cases hs : SetNestedMapValue [] (k2 :: ks) v with
      | error e => simp [hs, Except.map] at h
      | ok sub =>
        simp only [hs, Except.map, Except.ok.injEq] at h
        subst h
        exact get_set_ne m k k' _ hk
    · rename_i sub _
      cases hs : SetNestedMapValue sub (k2 :: ks) v with
      | error e => simp [hs, Except.map] at h
      | ok sub' =>
        simp only [hs, Except.map, Except.ok.injEq] at h
        subst h
        exact get_set_ne m k k' _ hk
    · simp at h

theorem SetNestedMapValue_getPath_same (path : List String) (m m' : Doc) (v : Value)
    (h : SetNestedMapValue m path v = .ok m') : getPath m' path = some v := by
  induction path generalizing m m' with
  | nil => simp [SetNestedMapValue] at h
  | cons k ks ih =>
    cases ks with
    | nil =>
      simp only [SetNestedMapValue, Except.ok.injEq] at h
      subst h
      simp [getPath, get_set_same]
    | cons k2 ks' =>
      simp only [SetNestedMapValue] at h
      split at h
      · cases hs : SetNestedMapValue [] (k2 :: ks') v with
        | error e => simp [hs, Except.map] at h
        | ok sub =>
          simp only [hs, Except.map, Except.ok.injEq] at h
          subst h
          simp only [getPath, get_set_same]
          exact ih [] sub hs
      · rename_i sub _
        cases hs : SetNestedMapValue sub (k2 :: ks') v with
        | error e => simp [hs, Except.map] at h
        | ok sub' =>
          simp only [hs, Except.map, Except.ok.injEq] at h
          subst h
          simp only [getPath, get_set_same]
          exact ih sub sub' hs
      · simp at h

theorem SetNestedMapValue_getPath_frame (path : List String) (m m' : Doc) (v : Value)
    (h : SetNestedMapValue m path v = .ok m') (q : List String)
    (hq : ¬ q <+: path) (hp : ¬ path <+: q) : getPath m' q = getPath m q := by
  induction path generalizing m m' q with
  | nil => simp [SetNestedMapValue] at h
  | cons k ks ih =>
    cases q with
    | nil => exact absurd List.nil_prefix hq
    | cons k' qs =>
      by_cases hk : k' = k
      · subst hk
        cases ks with
        | nil => exact absurd (by simp) hp
        | cons k2 ks' =>
          cases qs with
          | nil => exact absurd (by simp) hq
          | cons q2 qs' =>
            have hq' : ¬ (q2 :: qs') <+: (k2 :: ks') := fun hh =>
              hq ((List.prefix_cons_inj k').mpr hh)
            have hp' : ¬ (k2 :: ks') <+: (q2 :: qs') := fun hh =>
              hp ((List.prefix_cons_inj k').mpr hh)
            simp only [SetNestedMapValue] at h
            split at h
            · rename_i hg
              cases hs : SetNestedMapValue [] (k2 :: ks') v with
              | error e => simp [hs, Except.map] at h
              | ok sub =>
                simp only [hs, Except.map, Except.ok.injEq] at h
                subst h
                simp only [getPath, get_set_same, hg]
                rw [ih [] sub hs (q2 :: qs') hq' hp', getPath_nil]
            · rename_i sub hg
              cases hs : SetNestedMapValue sub (k2 :: ks') v with
              | error e => simp [hs, Except.map] at h
              | ok sub' =>
                simp only [hs, Except.map, Except.ok.injEq] at h
                subst h
                simp only [getPath, get_set_same, hg]
                exact ih sub sub' hs (q2 :: qs') hq' hp'
            · simp at h
      · exact getPath_congr_head m m' k' qs (SetNestedMapValue_get_ne ks m m' k k' v h hk)

/-! ### The step loops -/

theorem updateStep_script (scriptPath interval : String) (t : Doc) :
    get (updateStep scriptPath interval t) "script" = some (.str scriptPath) := by
  unfold updateStep
  by_cases h : interval ≠ ""
  · simp only [h, ne_eq, not_false_eq_true, if_true]
    rw [get_set_ne _ _ _ _ (by decide), get_set_same]
  · simp only [h, if_false]
    exact get_set_same _ _ _

theorem updateStep_interval (scriptPath interval : String) (t : Doc) (h : interval ≠ "") :
    get (updateStep scriptPath interval t) "interval" = some (.str interval) := by
  unfold updateStep
  simp only [h, ne_eq, not_false_eq_true, if_true]
  exact get_set_same _ _ _

theorem updateStep_other (scriptPath interval : String) (t : Doc) (k : String)
    (hs : k ≠ "script") (hi : k = "interval" → interval = "") :
    get (updateStep scriptPath interval t) k = get t k := by
  unfold updateStep
  by_cases h : interval ≠ ""
  · have hk : k ≠ "interval" := fun hh => h (hi hh)
    simp only [h, ne_eq, not_false_eq_true, if_true]
    rw [get_set_ne _ _ _ _ hk, get_set_ne _ _ _ _ hs]
  · simp only [h, if_false]
    exact get_set_ne _ _ _ _ hs

theorem updateStep_overwritten (scriptPath interval : String) (t : Doc) :
    StepOverwritten scriptPath interval (some (updateStep scriptPath interval t)) :=
  ⟨_, rfl, updateStep_script scriptPath interval t,
    fun h => updateStep_interval scriptPath interval t h⟩


theorem updateTables_ok (scriptPath interval : String) (ms steps : List (Option Doc))
    (h : updateTables scriptPath interval ms = .ok steps) :
    List.Forall₂ (fun o n => ∃ t, o = some t ∧ n = some (updateStep scriptPath interval t))
      ms steps := by
  induction ms generalizing steps with
  | nil =>
    simp only [updateTables, Except.ok.injEq] at h
    subst h
    exact List.Forall₂.nil
  | cons o rest ih =>
    cases o with
    | none => simp [updateTables] at h
    | some t =>
      simp only [updateTables] at h
      cases hr : updateTables scriptPath interval rest with
      | error e => simp [hr, Except.map] at h
      | ok rest' =>
        simp only [hr, Except.map, Except.ok.injEq] at h
        subst h
        exact List.Forall₂.cons ⟨t, rfl, rfl⟩ (ih rest' hr)

theorem mergeTemplate_ok (m : Doc) (topics : List String) (scriptPath interval : String)
    (m' : Doc) (h : mergeTemplate m topics scriptPath interval = .ok m') :
    ∃ m1, ((topics.length > 0 ∧
          SetNestedMapValue m ["input", "mqtt", "topics"] (.strs topics) = .ok m1) ∨
        (topics.length = 0 ∧ m1 = m)) ∧
      ((get m1 "steps" = none ∧ m' = m1) ∨
        ∃ raw steps, get m1 "steps" = some raw ∧
          newSteps scriptPath interval raw = .ok steps ∧
          m' = set m1 "steps" steps) := by
  unfold mergeTemplate at h
  by_cases ht : topics.length > 0
  · simp only [ht, if_true] at h
    cases hs : SetNestedMapValue m ["input", "mqtt", "topics"] (.strs topics) with
    | error e => simp [hs] at h
    | ok m1 =>
      simp only [hs] at h
      refine ⟨m1, Or.inl ⟨ht, rfl⟩, ?_⟩
      cases hg : get m1 "steps" with
      | none =>
        simp only [hg, Except.ok.injEq] at h
        exact Or.inl ⟨rfl, h.symm⟩
      | some raw =>
        simp only [hg] at h
        cases hn : newSteps scriptPath interval raw with
        | error e => simp [hn] at h
        | ok steps =>
          simp only [hn, Except.ok.injEq] at h
          exact Or.inr ⟨raw, steps, rfl, hn, h.symm⟩
  · simp only [ht, if_false] at h
    refine ⟨m, Or.inr ⟨by omega, rfl⟩, ?_⟩
    cases hg : get m "steps" with
    | none =>
      simp only [hg, Except.ok.injEq] at h
      exact Or.inl ⟨rfl, h.symm⟩
    | some raw =>
      simp only [hg] at h
      cases hn : newSteps scriptPath interval raw with
      | error e => simp [hn] at h
      | ok steps =>
        simp only [hn, Except.ok.injEq] at h
        exact Or.inr ⟨raw, steps, rfl, hn, h.symm⟩

theorem mergeTemplate_steps (m : Doc) (topics : List String) (scriptPath interval : String)
    (m' : Doc) (stepsRaw : Value) (hsteps : get m "steps" = some stepsRaw)
    (h : mergeTemplate m topics scriptPath interval = .ok m') :
    ∃ steps, newSteps scriptPath interval stepsRaw = .ok steps ∧
      get m' "steps" = some steps := by
  obtain ⟨m1, h1, h2⟩ := mergeTemplate_ok m topics scriptPath interval m' h
  have hg : get m1 "steps" = some stepsRaw := by
    rcases h1 with ⟨_, hs⟩ | ⟨_, rfl⟩
    · rw [SetNestedMapValue_get_ne _ m m1 "input" "steps" _ hs (by decide)]
      exact hsteps
    · exact hsteps
  rcases h2 with ⟨hn, _⟩ | ⟨raw, steps, hr, hn, rfl⟩
  · rw [hg] at hn
    cases hn
  · rw [hg] at hr
    cases hr
    exact ⟨steps, hn, get_set_same _ _ _⟩

theorem newSteps_tables (scriptPath interval : String) (ms : List (Option Doc)) (v : Value)
    (h : newSteps scriptPath interval (.tables ms) = .ok v) :
    ∃ steps, v = .tables steps ∧ updateTables scriptPath interval ms = .ok steps := by
  simp only [newSteps] at h
  cases hu : updateTables scriptPath interval ms with
  | error e => simp [hu, Except.map] at h
  | ok steps =>
    simp only [hu, Except.map, Except.ok.injEq] at h
    exact ⟨steps, h.symm, rfl⟩

/-- The step loops on the document handed to the encoder: when the template has
a `steps` entry and the merge succeeds, the stored `steps` is, for a list of
tables and for a generic list, a list of maps with one map per element; the map
stored for every element that is a table has `script` equal to the entrypoint
and, when an interval override was supplied, `interval` equal to it; for an
element of a generic list that is not a table a nil map is stored; for a `steps`
entry that is not a list the nil slice is stored. -/
theorem mergeTemplate_overwrites_table_steps (m : Doc) (topics : List String)
    (scriptPath interval : String) (m' : Doc) (stepsRaw : Value)
    (hsteps : get m "steps" = some stepsRaw)
    (h : mergeTemplate m topics scriptPath interval = .ok m') :
    ∃ v, get m' "steps" = some v ∧
      (∀ ms, stepsRaw = .tables ms → ∃ steps, v = .tables steps ∧
        List.Forall₂ (fun _ s => StepOverwritten scriptPath interval s) ms steps) ∧
      (∀ vs, stepsRaw = .list vs → ∃ steps, v = .tables steps ∧
        List.Forall₂ (fun v s =>
          ((∃ t, v = Value.table t) → StepOverwritten scriptPath interval s) ∧
          ((¬ ∃ t, v = Value.table t) → s = none)) vs steps) ∧
      ((∀ ms, stepsRaw ≠ .tables ms) → (∀ vs, stepsRaw ≠ .list vs) → v = .nilTables) := by
  obtain ⟨v, hn, hg⟩ := mergeTemplate_steps m topics scriptPath interval m' stepsRaw hsteps h
  refine ⟨v, hg, ?_, ?_, ?_⟩
  · rintro ms rfl
    obtain ⟨steps, rfl, hu⟩ := newSteps_tables scriptPath interval ms v hn
    refine ⟨steps, rfl, (updateTables_ok scriptPath interval ms steps hu).imp ?_⟩
    rintro o n ⟨t, _, rfl⟩
    exact updateStep_overwritten scriptPath interval t
  · rintro vs rfl
    simp only [newSteps, Except.ok.injEq] at hn
    subst hn
    refine ⟨_, rfl, ?_⟩
    rw [List.forall₂_map_right_iff]
    refine List.forall₂_same.mpr ?_
    intro v _
    constructor
    · rintro ⟨t, rfl⟩
      exact updateStep_overwritten scriptPath interval t
    · intro hv
      cases v with
      | table t => exact absurd ⟨t, rfl⟩ hv
      | _ => rfl
  · intro h1 h2
    cases stepsRaw with
    | tables ms => exact absurd rfl (h1 ms)
    | list vs => exact absurd rfl (h2 vs)
    | _ => simpa [newSteps] using hn.symm

/-- An instance of `mergeTemplate_overwrites_table_steps`: a template whose
generic step list holds a table and the integer `7`, merged with the interval
override `5s`. -/
theorem mergeTemplate_overwrites_table_steps_witness :
    ∃ steps, get [("steps", Value.tables
          [some [("script", .str "/img/c/lib/main.js"), ("interval", .str "5s")], none])]
        "steps" = some (.tables steps) ∧
      List.Forall₂ (fun v s =>
          ((∃ t, v = Value.table t) → StepOverwritten "/img/c/lib/main.js" "5s" s) ∧
          ((¬ ∃ t, v = Value.table t) → s = none))
        [Value.table [("script", .str "main.js")], Value.int 7] steps := by
  obtain ⟨v, hg, _, hl, _⟩ := mergeTemplate_overwrites_table_steps
    [("steps", .list [.table [("script", .str "main.js")], .int 7])] []
    "/img/c/lib/main.js" "5s"
    [("steps", .tables
      [some [("script", .str "/img/c/lib/main.js"), ("interval", .str "5s")], none])]
    (.list [.table [("script", .str "main.js")], .int 7]) rfl rfl
  obtain ⟨steps, rfl, hf⟩ := hl _ rfl
  exact ⟨steps, hg, hf⟩

theorem mergeTemplate_frame (m : Doc) (topics : List String) (scriptPath interval : String)
    (m' : Doc) (h : mergeTemplate m topics scriptPath interval = .ok m')
    (k : String) (qs : List String) (hk : k ≠ "steps")
    (hq : topics = [] ∨ (¬ (k :: qs) <+: ["input", "mqtt", "topics"] ∧
      ¬ ["input", "mqtt", "topics"] <+: (k :: qs))) :
    getPath m' (k :: qs) = getPath m (k :: qs) := by
  obtain ⟨m1, h1, h2⟩ := mergeTemplate_ok m topics scriptPath interval m' h
  have e1 : getPath m1 (k :: qs) = getPath m (k :: qs) := by
    rcases h1 with ⟨hlen, hs⟩ | ⟨_, rfl⟩
    · rcases hq with rfl | ⟨a, b⟩
      · simp at hlen
      · exact SetNestedMapValue_getPath_frame _ m m1 _ hs (k :: qs) a b
    · rfl
  rcases h2 with ⟨_, rfl⟩ | ⟨raw, steps, _, _, rfl⟩
  · exact e1
  · rw [← e1]
    exact getPath_congr_head m1 _ k qs (get_set_ne m1 "steps" k _ hk)

theorem mergeTemplate_no_steps (m : Doc) (topics : List String)
    (scriptPath interval : String) (m' : Doc)
    (h : mergeTemplate m topics scriptPath interval = .ok m')
    (hsteps : get m "steps" = none) : get m' "steps" = none := by
  obtain ⟨m1, h1, h2⟩ := mergeTemplate_ok m topics scriptPath interval m' h
  have hg : get m1 "steps" = none := by
    rcases h1 with ⟨_, hs⟩ | ⟨_, rfl⟩
    · rw [SetNestedMapValue_get_ne _ m m1 "input" "steps" _ hs (by decide)]
      exact hsteps
    · exact hsteps
  rcases h2 with ⟨_, rfl⟩ | ⟨raw, steps, hr, _, _⟩
  · exact hg
  · rw [hg] at hr
    cases hr

/-- The frame of the merge on the document handed to the encoder: for a template
whose `steps` entry, when there is one, is a list of tables or a generic list
holding only tables, a merge that succeeds changes nothing but
`input.mqtt.topics` (when topics were given), each step's `script` and each
step's `interval` (when an override was supplied): every value under a key path
that does not start with `steps` and is not on the path `input.mqtt.topics` is
kept, a template without `steps` gets none, and the stored step list has one
step per template step, in order, each with all its other fields unchanged. -/
theorem mergeTemplate_preserves_template (m : Doc) (topics : List String)
    (scriptPath interval : String) (m' : Doc)
    (hlist : ∀ raw, get m "steps" = some raw →
      ∃ olds, stepValues raw = some olds ∧ ∀ o ∈ olds, ∃ t, o = Value.table t)
    (h : mergeTemplate m topics scriptPath interval = .ok m') :
    (∀ k qs, k ≠ "steps" →
      (topics = [] ∨ (¬ (k :: qs) <+: ["input", "mqtt", "topics"] ∧
        ¬ ["input", "mqtt", "topics"] <+: (k :: qs))) →
      getPath m' (k :: qs) = getPath m (k :: qs)) ∧
    (get m "steps" = none → get m' "steps" = none) ∧
    (∀ raw, get m "steps" = some raw →
      ∃ olds news, stepValues raw = some olds ∧ get m' "steps" = some (.tables news) ∧
        List.Forall₂ (StepKept interval) olds news) := by
  refine ⟨fun k qs hk hq => mergeTemplate_frame m topics scriptPath interval m' h k qs hk hq,
    mergeTemplate_no_steps m topics scriptPath interval m' h, ?_⟩
  intro raw hraw
  obtain ⟨olds, holds, hall⟩ := hlist raw hraw
  obtain ⟨v, hn, hg⟩ := mergeTemplate_steps m topics scriptPath interval m' raw hraw h
  cases raw with
  | tables ms =>
    obtain ⟨news, rfl, hu⟩ := newSteps_tables scriptPath interval ms v hn
    refine ⟨olds, news, holds, hg, ?_⟩
    simp only [stepValues, Option.some.injEq] at holds
    subst holds
    rw [List.forall₂_map_left_iff]
    refine (updateTables_ok scriptPath interval ms news hu).imp ?_
    rintro o n ⟨t, rfl, rfl⟩
    exact ⟨t, _, rfl, rfl, fun k hs hi => updateStep_other scriptPath interval t k hs hi⟩
  | list vs =>
    simp only [newSteps, Except.ok.injEq] at hn
    subst hn
    refine ⟨olds, _, holds, hg, ?_⟩
    simp only [stepValues, Option.some.injEq] at holds
    subst holds
    rw [List.forall₂_map_right_iff]
    refine List.forall₂_same.mpr ?_
    intro v hv
    obtain ⟨t, rfl⟩ := hall v hv
    exact ⟨t, _, rfl, rfl, fun k hs hi => updateStep_other scriptPath interval t k hs hi⟩
  | _ => simp [stepValues] at holds

/-- An instance of `mergeTemplate_preserves_template`: a template with a title,
an input section and one step, merged with new topics and an interval override. -/
theorem mergeTemplate_preserves_template_witness :
    getPath [("title", Value.str "t"),
        ("input", .table [("mqtt", .table [("topics", .strs ["a/b"]), ("qos", .int 1)])]),
        ("steps", .tables [some [("script", .str "/img/c/lib/main.js"),
          ("config", .int 3), ("interval", .str "5s")]])] ["input", "mqtt", "qos"] =
      getPath [("title", Value.str "t"),
        ("input", .table [("mqtt", .table [("topics", .strs ["x/y"]), ("qos", .int 1)])]),
        ("steps", .tables [some [("script", .str "main.js"), ("config", .int 3)]])]
        ["input", "mqtt", "qos"] :=
  (mergeTemplate_preserves_template
    [("title", .str "t"),
      ("input", .table [("mqtt", .table [("topics", .strs ["x/y"]), ("qos", .int 1)])]),
      ("steps", .tables [some [("script", .str "main.js"), ("config", .int 3)]])]
    ["a/b"] "/img/c/lib/main.js" "5s"
    [("title", .str "t"),
      ("input", .table [("mqtt", .table [("topics", .strs ["a/b"]), ("qos", .int 1)])]),
      ("steps", .tables [some [("script", .str "/img/c/lib/main.js"),
        ("config", .int 3), ("interval", .str "5s")]])]
    (fun raw hraw => by
      simp [get] at hraw
      subst hraw
      exact ⟨_, rfl, by simp⟩)
    rfl).1 "input" ["mqtt", "qos"] (by decide) (Or.inr ⟨by decide, by decide⟩)

/-! ### `deploy` -/

theorem set_set {β : Type} (m : List (String × β)) (k : String) (a b : β) :
    set (set m k a) k b = set m k b := by
  induction m with
  | nil => simp [set]
  | cons kv rest ih =>
    obtain ⟨k', v'⟩ := kv
    by_cases h : k' = k
    · simp [set, h]
    · simp [set, h, ih]

theorem pullIfMissing_deploy (env : Env) (cfg : Config) (imageRef imagePath : String)
    (w : World) : (pullIfMissing env cfg imageRef imagePath w).1.deploy = w.deploy := by
  unfold pullIfMissing
  by_cases h : IsNotExist (w.images.Stat imagePath) = true
  · simp only [h, if_true]
    cases hp : env.PullImage cfg imageRef cfg.ImageDir "" false w.images with
    | mk images r => cases r <;> simp
  · simp [h]

theorem pullIfMissing_images (env : Env) (cfg : Config) (imageRef imagePath : String)
    (w w' : World) (h : w'.images = w.images) :
    (pullIfMissing env cfg imageRef imagePath w').1.images =
      (pullIfMissing env cfg imageRef imagePath w).1.images := by
  unfold pullIfMissing
  rw [h]
  by_cases hs : IsNotExist (w.images.Stat imagePath) = true
  · simp only [hs, if_true]
    cases hp : env.PullImage cfg imageRef cfg.ImageDir "" false w.images with
    | mk images r => cases r <;> simp
  · simp [hs, h]

theorem pullIfMissing_present (env : Env) (cfg : Config) (imageRef imagePath : String)
    (w : World) (h : IsNotExist (w.images.Stat imagePath) = false) :
    pullIfMissing env cfg imageRef imagePath w = (w, none) := by
  simp [pullIfMissing, h]

theorem encodeDocument_ok (env : Env) (doc : Doc) (bytes : Bytes)
    (h : encodeDocument env doc = .ok bytes) :
    hasNilElement doc = false ∧ env.Encode doc = .ok bytes := by
  unfold encodeDocument at h
  by_cases hn : hasNilElement doc = true
  · simp [hn] at h
  · simp only [hn, Bool.false_eq_true, if_false] at h
    exact ⟨by simpa using hn, h⟩

theorem deploy_ok (env : Env) (cfg : Config) (instanceName imageRef : String)
    (topics : List String) (interval mapper : String) (w w' : World)
    (h : deploy env cfg instanceName imageRef topics interval mapper w = (w', none)) :
    ∃ deployDir dfs name w1 doc bytes,
      cfg.GetDeployDir env mapper = .ok deployDir ∧
      MkdirAll env w.deploy deployDir = .ok dfs ∧
      env.ParseName imageRef = .ok name ∧
      pullIfMissing env cfg imageRef (Join [cfg.ImageDir, name]) { w with deploy := dfs } =
        (w1, none) ∧
      IsNotExist (w1.images.Stat (Join [Join [cfg.ImageDir, name], "lib/main.js"])) = false ∧
      buildDocument env w1.images (Join [cfg.ImageDir, name])
        (Join [Join [cfg.ImageDir, name], "lib/main.js"]) topics interval = .ok doc ∧
      env.CreateFails w1.deploy (Join [deployDir, instanceName ++ ".toml"]) = false ∧
      encodeDocument env doc = .ok bytes ∧
      w' = { w1 with deploy := { w1.deploy with
        files := set w1.deploy.files (Join [deployDir, instanceName ++ ".toml"]) bytes } } := by
  unfold deploy at h
  cases h0 : cfg.GetDeployDir env mapper with
  | error e => simp [h0] at h
  | ok deployDir =>
    simp only [h0] at h
    cases h1 : MkdirAll env w.deploy deployDir with
    | error e => simp [h1] at h
    | ok dfs =>
      simp only [h1] at h
      cases h2 : env.ParseName imageRef with
      | error e => simp [h2] at h
      | ok name =>
        simp only [h2] at h
        cases h3 : pullIfMissing env cfg imageRef (Join [cfg.ImageDir, name])
            { w with deploy := dfs } with
        | mk w1 r =>
          simp only [h3] at h
          cases r with
          | some e => simp at h
          | none =>
            simp only at h
            by_cases h4 : IsNotExist
                (w1.images.Stat (Join [Join [cfg.ImageDir, name], "lib/main.js"])) = true
            · simp [h4] at h
            · simp only [h4, Bool.false_eq_true, if_false] at h
              cases h5 : buildDocument env w1.images (Join [cfg.ImageDir, name])
                  (Join [Join [cfg.ImageDir, name], "lib/main.js"]) topics interval with
              | error e => simp [h5] at h
              | ok doc =>
                simp only [h5, writeInstance] at h
                by_cases h6 : env.CreateFails w1.deploy
                    (Join [deployDir, instanceName ++ ".toml"]) = true
                · simp [h6] at h
                · simp only [h6, Bool.false_eq_true, if_false] at h
                  cases h7 : encodeDocument env doc with
                  | error e => simp [h7] at h
                  | ok bytes =>
                    simp only [h7, Prod.mk.injEq, and_true, set_set] at h
                    exact ⟨deployDir, dfs, name, w1, doc, bytes, rfl, h1, rfl, h3,
                      by simpa using h4, h5, by simpa using h6, h7, h.symm⟩

theorem mergeTemplate_topics (m : Doc) (topics : List String) (scriptPath interval : String)
    (m' : Doc) (hne : topics ≠ [])
    (h : mergeTemplate m topics scriptPath interval = .ok m') :
    getPath m' ["input", "mqtt", "topics"] = some (.strs topics) := by
  obtain ⟨m1, h1, h2⟩ := mergeTemplate_ok m topics scriptPath interval m' h
  have e1 : getPath m1 ["input", "mqtt", "topics"] = some (.strs topics) := by
    rcases h1 with ⟨_, hs⟩ | ⟨hl, _⟩
    · exact SetNestedMapValue_getPath_same _ m m1 _ hs
    · exact absurd (List.length_eq_zero.mp hl) hne
  rcases h2 with ⟨_, rfl⟩ | ⟨raw, steps, _, _, rfl⟩
  · exact e1
  · rw [← e1]
    exact getPath_congr_head m1 _ "input" _ (get_set_ne m1 "steps" "input" _ (by decide))

theorem buildDocument_template (env : Env) (images : FS) (imagePath scriptPath : String)
    (topics : List String) (interval : String) (m doc : Doc)
    (hstat : (images.Stat (findTemplate images imagePath)).errIsNil = true)
    (hdec : DecodeFile env images (findTemplate images imagePath) = .ok m)
    (hdoc : buildDocument env images imagePath scriptPath topics interval = .ok doc) :
    mergeTemplate m topics scriptPath interval = .ok doc := by
  unfold buildDocument at hdoc
  simp only [hstat, if_true, hdec] at hdoc
  cases hm : mergeTemplate m topics scriptPath interval with
  | error e => simp [hm] at hdoc
  | ok m' =>
    simp only [hm, Except.ok.injEq] at hdoc
    rw [hdoc]

/-- C3: when `deploy` finds a template, decodes it to `m` and builds the document
to write with a non-empty topics list, the value of that document at the key
path `input.mqtt.topics` is exactly the given list, whatever `m` held there. -/
theorem buildDocument_template_topics (env : Env) (images : FS)
    (imagePath scriptPath : String) (topics : List String) (interval : String) (m doc : Doc)
    (hne : topics ≠ [])
    (hstat : (images.Stat (findTemplate images imagePath)).errIsNil = true)
    (hdec : DecodeFile env images (findTemplate images imagePath) = .ok m)
    (hdoc : buildDocument env images imagePath scriptPath topics interval = .ok doc) :
    getPath doc ["input", "mqtt", "topics"] = some (.strs topics) :=
  mergeTemplate_topics m topics scriptPath interval doc hne
    (buildDocument_template env images imagePath scriptPath topics interval m doc hstat hdec hdoc)

/-- Witness for C3: topics `a/b`, `c/d` against a template whose topics were `x/y`. -/
theorem buildDocument_template_topics_witness :
    ∃ doc, buildDocument exampleEnv templateImages "/images/counter"
        "/images/counter/lib/main.js" ["a/b", "c/d"] "" = .ok doc ∧
      getPath exampleTemplate ["input", "mqtt", "topics"] = some (.list [.str "x/y"]) ∧
      getPath doc ["input", "mqtt", "topics"] = some (.strs ["a/b", "c/d"]) :=
  ⟨_, rfl, rfl, buildDocument_template_topics exampleEnv templateImages "/images/counter"
    "/images/counter/lib/main.js" ["a/b", "c/d"] "" exampleTemplate _ (by decide) (by decide)
    rfl rfl⟩


theorem minimalDoc_eq (topics : List String) (scriptPath interval : String) :
    minimalDoc topics scriptPath interval =
      .ok (if topics.length > 0 then
        [("steps", .tables [some [("script", .str scriptPath),
            ("interval", .strPtr (if interval ≠ "" then some interval else none))]]),
          ("input", .table [("mqtt", .table [("topics", .strs topics)])])]
      else
        [("steps", .tables [some [("script", .str scriptPath),
            ("interval", .strPtr (if interval ≠ "" then some interval else none))]])]) := by
  unfold minimalDoc
  by_cases ht : topics.length > 0
  · simp only [ht, if_true, SetNestedMapValue, get, set, Except.map]
    simp
  · simp only [ht, if_false]

theorem buildDocument_without_template (env : Env) (images : FS)
    (imagePath scriptPath : String) (topics : List String) (interval : String)
    (hflow : (images.Stat (Join [imagePath, "flow.toml"])).errIsNil = false)
    (hpipe : (images.Stat (Join [imagePath, "pipeline.toml"])).errIsNil = false) :
    ∃ data step, buildDocument env images imagePath scriptPath topics interval = .ok data ∧
      get data "steps" = some (.tables [some step]) ∧
      field step "script" = some (.str scriptPath) ∧
      field step "interval" = (if interval ≠ "" then some (.str interval) else none) ∧
      (topics ≠ [] → getPath data ["input", "mqtt", "topics"] = some (.strs topics)) := by
  have hfind : findTemplate images imagePath = "" := by simp [findTemplate, hflow, hpipe]
  have hstat : (images.Stat "").errIsNil = false := by simp [FS.Stat, StatResult.errIsNil]
  unfold buildDocument
  simp only [hfind, hstat, Bool.false_eq_true, if_false]
  rw [minimalDoc_eq]
  refine ⟨_, [("script", .str scriptPath),
    ("interval", .strPtr (if interval ≠ "" then some interval else none))], rfl, ?_, ?_, ?_, ?_⟩
  · by_cases ht : topics.length > 0 <;> simp [ht, get]
  · simp [field, get, encoded]
  · by_cases hi : interval = "" <;> simp [field, get, encoded, hi]
  · intro hne
    have ht : topics.length > 0 := List.length_pos.mpr hne
    simp [ht, getPath, get]

/-- C5: when the artifact directory holds neither `flow.toml` nor `pipeline.toml`
and `deploy` succeeds, the instance file holds the encoding of a document whose
`steps` is a list of exactly one step; the step's `script` is the entrypoint
`filepath.Join(filepath.Join(image_dir, name), "lib/main.js")`, its `interval`
is the override when one was supplied and is not written otherwise, and
`input.mqtt.topics` is the given list when that is non-empty. -/
theorem deploy_without_template (env : Env) (cfg : Config) (instanceName imageRef : String)
    (topics : List String) (interval mapper : String) (w w' : World)
    (h : deploy env cfg instanceName imageRef topics interval mapper w = (w', none))
    (hflow : ∀ name, env.ParseName imageRef = .ok name →
      (w'.images.Stat (Join [Join [cfg.ImageDir, name], "flow.toml"])).errIsNil = false)
    (hpipe : ∀ name, env.ParseName imageRef = .ok name →
      (w'.images.Stat (Join [Join [cfg.ImageDir, name], "pipeline.toml"])).errIsNil = false) :
    ∃ deployDir name data step bytes,
      cfg.GetDeployDir env mapper = .ok deployDir ∧
      env.ParseName imageRef = .ok name ∧
      env.Encode data = .ok bytes ∧
      get w'.deploy.files (Join [deployDir, instanceName ++ ".toml"]) = some bytes ∧
      get data "steps" = some (.tables [some step]) ∧
      field step "script" =
        some (.str (Join [Join [cfg.ImageDir, name], "lib/main.js"])) ∧
      field step "interval" = (if interval ≠ "" then some (.str interval) else none) ∧
      (topics ≠ [] → getPath data ["input", "mqtt", "topics"] = some (.strs topics)) := by
  obtain ⟨deployDir, dfs, name, w1, doc, bytes, h0, _, h2, _, _, h5, _, h7, rfl⟩ :=
    deploy_ok env cfg instanceName imageRef topics interval mapper w w' h
  obtain ⟨data, step, hb, hs, hscript, hint, htop⟩ :=
    buildDocument_without_template env w1.images (Join [cfg.ImageDir, name])
      (Join [Join [cfg.ImageDir, name], "lib/main.js"]) topics interval
      (hflow name h2) (hpipe name h2)
  have hd : data = doc := by
    rw [hb] at h5
    exact Except.ok.inj h5
  subst hd
  exact ⟨deployDir, name, data, step, bytes, h0, h2, (encodeDocument_ok env data bytes h7).2,
    get_set_same _ _ _, hs, hscript, hint, htop⟩

/-- Witness for C5: the artifact `counter` without a template, in which `lib` is
a regular file so that `os.Stat` of the entrypoint fails with an error other
than not-exist, deployed as `counter1` with one topic and no interval. -/
theorem deploy_without_template_witness :
    ∃ deployDir name data step bytes,
      exampleConfig.GetDeployDir exampleEnv "flows" = .ok deployDir ∧
      exampleEnv.ParseName "ghcr.io/example/counter:1.0" = .ok name ∧
      exampleEnv.Encode data = .ok bytes ∧
      get ({ images := libFileImages,
             deploy := { dirs := ["/deploy"], files := [("/deploy/counter1.toml", [2, 2])] } }
          : World).deploy.files (Join [deployDir, "counter1" ++ ".toml"]) = some bytes ∧
      get data "steps" = some (.tables [some step]) ∧
      field step "script" =
        some (.str (Join [Join [exampleConfig.ImageDir, name], "lib/main.js"])) ∧
      field step "interval" = (if "" ≠ "" then some (.str "") else none) ∧
      (["te/device/main///m/+"] ≠ [] →
        getPath data ["input", "mqtt", "topics"] = some (.strs ["te/device/main///m/+"])) :=
  deploy_without_template exampleEnv exampleConfig "counter1" "ghcr.io/example/counter:1.0"
    ["te/device/main///m/+"] "" "flows" { images := libFileImages, deploy := emptyFS }
    { images := libFileImages,
      deploy := { dirs := ["/deploy"], files := [("/deploy/counter1.toml", [2, 2])] } }
    (by decide)
    (fun name hn => by
      simp only [exampleEnv, Except.ok.injEq] at hn
      subst hn
      decide)
    (fun name hn => by
      simp only [exampleEnv, Except.ok.injEq] at hn
      subst hn
      decide)

/-- The entrypoint test of line 324 returns only for an error that is
not-exist: with `/images/counter` a regular file, or with `/images/counter/lib` a
regular file, `os.Stat` of the entrypoint fails with ENOTDIR, no template is
found, and `deploy` writes the minimal document and returns `nil`; with the
artifact present it does the same; with no entrypoint at all in an existing
artifact directory it returns the error. -/
theorem deploy_entrypoint_stat :
    artifactFileImages.Stat "/images/counter/lib/main.js" = .otherErr ∧
    libFileImages.Stat "/images/counter/lib/main.js" = .otherErr ∧
    deploy exampleEnv exampleConfig "counter1" "ghcr.io/example/counter:1.0" [] "" "flows"
        { images := artifactFileImages, deploy := emptyFS } =
      ({ images := artifactFileImages,
         deploy := { dirs := ["/deploy"], files := [("/deploy/counter1.toml", [2])] } }, none) ∧
    deploy exampleEnv exampleConfig "counter1" "ghcr.io/example/counter:1.0" [] "" "flows"
        { images := libFileImages, deploy := emptyFS } =
      ({ images := libFileImages,
         deploy := { dirs := ["/deploy"], files := [("/deploy/counter1.toml", [2])] } }, none) ∧
    deploy exampleEnv exampleConfig "counter1" "ghcr.io/example/counter:1.0" [] "" "flows"
        { images := plainImages, deploy := emptyFS } =
      ({ images := plainImages,
         deploy := { dirs := ["/deploy"], files := [("/deploy/counter1.toml", [2])] } }, none) ∧
    deploy exampleEnv exampleConfig "counter1" "ghcr.io/example/counter:1.0" [] "" "flows"
        { images := { dirs := ["/images", "/images/counter"], files := [] },
          deploy := emptyFS } =
      ({ images := { dirs := ["/images", "/images/counter"], files := [] },
         deploy := { dirs := ["/deploy"], files := [] } },
        some (.missingEntrypoint "/images/counter/lib/main.js")) := by
  decide

theorem MkdirAll_ok (env : Env) (fs dfs : FS) (path : String)
    (h : MkdirAll env fs path = .ok dfs) :
    dfs.files = fs.files ∧ dfs.dirs.contains path = true ∧
      (dfs.dirs = fs.dirs ∨ dfs.dirs = fs.dirs ++ [path]) ∧
      (fs.dirs.contains path = true → dfs = fs) := by
  unfold MkdirAll at h
  by_cases hf : env.MkdirAllFails fs path = true
  · simp [hf] at h
  · simp only [hf, Bool.false_eq_true, if_false, Except.ok.injEq] at h
    subst h
    by_cases hc : path ∈ fs.dirs
    · simp [hc]
    · simp [hc]

/-- C7: a successful `deploy` replaces the instance file and is idempotent.
Whatever the deploy location held before, the instance file afterwards depends
only on the image cache and the arguments: two successful deploys with the same
arguments from worlds with the same image cache leave the same contents at
`<deployDir>/<instanceName>.toml`.  And a second successful deploy with the same
arguments, run after the first against the artifact it found, leaves the world
exactly as the first one left it. -/
theorem deploy_idempotent (env : Env) (cfg : Config) (instanceName imageRef : String)
    (topics : List String) (interval mapper : String) (w w1 : World)
    (h1 : deploy env cfg instanceName imageRef topics interval mapper w = (w1, none)) :
    (∀ v v1 deployDir, v.images = w.images →
      deploy env cfg instanceName imageRef topics interval mapper v = (v1, none) →
      cfg.GetDeployDir env mapper = .ok deployDir →
      v1.images = w1.images ∧
      (∃ bytes, get w1.deploy.files (Join [deployDir, instanceName ++ ".toml"]) = some bytes ∧
        get v1.deploy.files (Join [deployDir, instanceName ++ ".toml"]) = some bytes)) ∧
    (∀ w2, (∀ name, env.ParseName imageRef = .ok name →
        IsNotExist (w1.images.Stat (Join [cfg.ImageDir, name])) = false) →
      deploy env cfg instanceName imageRef topics interval mapper w1 = (w2, none) →
      w2 = w1) := by
  obtain ⟨deployDir, dfs, name, wa, doc, bytes, a0, a1, a2, a3, _, a5, _, a7, rfl⟩ :=
    deploy_ok env cfg instanceName imageRef topics interval mapper w _ h1
  have hwa_images : wa.images =
      (pullIfMissing env cfg imageRef (Join [cfg.ImageDir, name]) w).1.images := by
    have := pullIfMissing_images env cfg imageRef (Join [cfg.ImageDir, name]) w
      { w with deploy := dfs } rfl
    rw [a3] at this
    exact this
  have hwa_deploy : wa.deploy = dfs := by
    have := pullIfMissing_deploy env cfg imageRef (Join [cfg.ImageDir, name])
      { w with deploy := dfs }
    rw [a3] at this
    exact this
  constructor
  · intro v v1 deployDir' hv h2 hd
    obtain ⟨deployDir2, dfs2, name2, wb, doc2, bytes2, b0, _, b2, b3, _, b5, _, b7, rfl⟩ :=
      deploy_ok env cfg instanceName imageRef topics interval mapper v _ h2
    have e0 : deployDir2 = deployDir := by
      rw [a0] at b0
      exact (Except.ok.inj b0).symm
    have e0' : deployDir' = deployDir := by
      rw [a0] at hd
      exact (Except.ok.inj hd).symm
    have e2 : name2 = name := by
      rw [a2] at b2
      exact (Except.ok.inj b2).symm
    subst e0 e0' e2
    have hwb_images : wb.images = wa.images := by
      have := pullIfMissing_images env cfg imageRef (Join [cfg.ImageDir, name2]) w
        { v with deploy := dfs2 } hv
      rw [b3] at this
      rw [hwa_images]
      exact this
    have edoc : doc2 = doc := by
      rw [hwb_images, a5] at b5
      exact (Except.ok.inj b5).symm
    subst edoc
    have ebytes : bytes2 = bytes := by
      rw [a7] at b7
      exact (Except.ok.inj b7).symm
    subst ebytes
    exact ⟨hwb_images, bytes2, get_set_same _ _ _, get_set_same _ _ _⟩
  · intro w2 hdir h2
    obtain ⟨deployDir2, dfs2, name2, wb, doc2, bytes2, b0, b1, b2, b3, _, b5, _, b7, rfl⟩ :=
      deploy_ok env cfg instanceName imageRef topics interval mapper _ _ h2
    have e0 : deployDir2 = deployDir := by
      rw [a0] at b0
      exact (Except.ok.inj b0).symm
    have e2 : name2 = name := by
      rw [a2] at b2
      exact (Except.ok.inj b2).symm
    subst e0 e2
    have hcontains : dfs.dirs.contains deployDir2 = true := (MkdirAll_ok env _ _ _ a1).2.1
    have hdfs2 := (MkdirAll_ok env _ _ _ b1).2.2.2 (by simpa [hwa_deploy] using hcontains)
    subst hdfs2
    rw [pullIfMissing_present env cfg imageRef _ _ (hdir name2 a2)] at b3
    have hwb := (Prod.mk.inj b3).1
    subst hwb
    have edoc : doc2 = doc := by
      rw [a5] at b5
      exact (Except.ok.inj b5).symm
    subst edoc
    have ebytes : bytes2 = bytes := by
      rw [a7] at b7
      exact (Except.ok.inj b7).symm
    subst ebytes
    simp [set_set]


/-- Witness for C7: the artifact `counter`, in which `lib` is a regular file so
that `os.Stat` of the entrypoint fails with ENOTDIR, deployed as `counter1` into
an empty deploy location and into one that holds a stale `counter1.toml`. -/
theorem deploy_idempotent_witness :
    ({ images := libFileImages,
       deploy := { dirs := ["/deploy"], files := [("/deploy/counter1.toml", [2, 2])] } }
      : World).images = libFileImages ∧
    ∃ bytes,
      get [("/deploy/counter1.toml", ([2, 2] : Bytes))] (Join ["/deploy", "counter1" ++ ".toml"]) =
        some bytes ∧
      get ({ images := libFileImages,
             deploy := { dirs := ["/deploy"],
                         files := [("/deploy/counter1.toml", [2, 2]), ("/deploy/other.toml", [5])] } }
          : World).deploy.files (Join ["/deploy", "counter1" ++ ".toml"]) = some bytes :=
  ((deploy_idempotent exampleEnv exampleConfig "counter1" "ghcr.io/example/counter:1.0"
      ["a/b"] "" "flows" { images := libFileImages, deploy := emptyFS }
      { images := libFileImages,
        deploy := { dirs := ["/deploy"], files := [("/deploy/counter1.toml", [2, 2])] } }
      (by decide)).1
    { images := libFileImages,
      deploy := { dirs := ["/deploy"],
                  files := [("/deploy/counter1.toml", [7, 7, 7]), ("/deploy/other.toml", [5])] } }
    { images := libFileImages,
      deploy := { dirs := ["/deploy"],
                  files := [("/deploy/counter1.toml", [2, 2]), ("/deploy/other.toml", [5])] } }
    "/deploy" rfl (by decide) rfl)

/-- C9 (as the code has it): when `deploy` returns an error other than a failure
of the encoder, which is the final write, every file of the deploy location is
as it was before the call, and its directories are as before or are those
before with the deploy directory, which `os.MkdirAll` creates first, added. -/
theorem deploy_failure_keeps_files (env : Env) (cfg : Config) (instanceName imageRef : String)
    (topics : List String) (interval mapper : String) (w w' : World) (e : DeployError)
    (h : deploy env cfg instanceName imageRef topics interval mapper w = (w', some e))
    (hne : ∀ msg, e ≠ .encode msg) :
    w'.deploy.files = w.deploy.files ∧
    (w'.deploy.dirs = w.deploy.dirs ∨
      ∃ deployDir, cfg.GetDeployDir env mapper = .ok deployDir ∧
        w'.deploy.dirs = w.deploy.dirs ++ [deployDir]) := by
  unfold deploy at h
  cases h0 : cfg.GetDeployDir env mapper with
  | error e0 =>
    simp only [h0, Prod.mk.injEq] at h
    rw [← h.1]
    exact ⟨rfl, Or.inl rfl⟩
  | ok deployDir =>
    simp only [h0] at h
    cases h1 : MkdirAll env w.deploy deployDir with
    | error e1 =>
      simp only [h1, Prod.mk.injEq] at h
      rw [← h.1]
      exact ⟨rfl, Or.inl rfl⟩
    | ok dfs =>
      obtain ⟨hfiles, _, hdirs, _⟩ := MkdirAll_ok env _ _ _ h1
      have hdirs' : dfs.dirs = w.deploy.dirs ∨
          ∃ d, Except.ok (ε := String) deployDir = .ok d ∧ dfs.dirs = w.deploy.dirs ++ [d] := by
        rcases hdirs with hd | hd
        · exact Or.inl hd
        · exact Or.inr ⟨deployDir, rfl, hd⟩
      simp only [h1] at h
      cases h2 : env.ParseName imageRef with
      | error e2 =>
        simp only [h2, Prod.mk.injEq] at h
        rw [← h.1]
        exact ⟨hfiles, hdirs'⟩
      | ok name =>
        simp only [h2] at h
        have hpd := pullIfMissing_deploy env cfg imageRef (Join [cfg.ImageDir, name])
          { w with deploy := dfs }
        cases h3 : pullIfMissing env cfg imageRef (Join [cfg.ImageDir, name])
            { w with deploy := dfs } with
        | mk w1 r =>
          rw [h3] at hpd
          simp only at hpd
          simp only [h3] at h
          cases r with
          | some e3 =>
            simp only [Prod.mk.injEq] at h
            rw [← h.1, hpd]
            exact ⟨hfiles, hdirs'⟩
          | none =>
            simp only at h
            by_cases h4 : IsNotExist
                (w1.images.Stat (Join [Join [cfg.ImageDir, name], "lib/main.js"])) = false
            · simp only [h4, Bool.false_eq_true, if_false] at h
              cases h5 : buildDocument env w1.images (Join [cfg.ImageDir, name])
                  (Join [Join [cfg.ImageDir, name], "lib/main.js"]) topics interval with
              | error e5 =>
                simp only [h5, Prod.mk.injEq] at h
                rw [← h.1, hpd]
                exact ⟨hfiles, hdirs'⟩
              | ok doc =>
                simp only [h5, writeInstance] at h
                by_cases h6 : env.CreateFails w1.deploy
                    (Join [deployDir, instanceName ++ ".toml"]) = true
                · simp only [h6, if_true, Prod.mk.injEq] at h
                  rw [← h.1, hpd]
                  exact ⟨hfiles, hdirs'⟩
                · simp only [h6, Bool.false_eq_true, if_false] at h
                  cases h7 : encodeDocument env doc with
                  | error e7 =>
                    simp only [h7, Prod.mk.injEq, Option.some.injEq] at h
                    exact absurd h.2.symm (hne e7)
                  | ok bytes => simp [h7] at h
            · have h4' : IsNotExist
                  (w1.images.Stat (Join [Join [cfg.ImageDir, name], "lib/main.js"])) = true := by
                simpa using h4
              simp only [h4', if_true, Prod.mk.injEq] at h
              rw [← h.1, hpd]
              exact ⟨hfiles, hdirs'⟩

/-- Witness for C9: a deploy of an invalid reference into a deploy location that
holds one instance file. -/
theorem deploy_failure_keeps_files_witness :
    ({ images := plainImages,
       deploy := { dirs := ["/deploy"], files := [("/deploy/a.toml", [1])] } } : World).deploy.files =
      [("/deploy/a.toml", [1])] ∧
    (({ images := plainImages,
        deploy := { dirs := ["/deploy"], files := [("/deploy/a.toml", [1])] } } : World).deploy.dirs =
        ["/deploy"] ∨
      ∃ deployDir, exampleConfig.GetDeployDir invalidRefEnv "flows" = .ok deployDir ∧
        ({ images := plainImages,
           deploy := { dirs := ["/deploy"], files := [("/deploy/a.toml", [1])] } }
          : World).deploy.dirs = ["/deploy"] ++ [deployDir]) :=
  deploy_failure_keeps_files invalidRefEnv exampleConfig "a" "::" [] "" "flows"
    { images := plainImages,
      deploy := { dirs := ["/deploy"], files := [("/deploy/a.toml", [1])] } }
    { images := plainImages,
      deploy := { dirs := ["/deploy"], files := [("/deploy/a.toml", [1])] } }
    (.invalidReference "invalid reference") (by decide) (fun _ => by simp)

/-- Counterexample to C9 as stated: with no deploy directory and an invalid
reference, `deploy` fails at `artifact.ParseName`, before any instance file is
written, and the deploy directory has been created. -/
theorem deploy_failure_creates_deploy_dir :
    deploy invalidRefEnv exampleConfig "counter1" "::" [] "" "flows"
        { images := plainImages, deploy := emptyFS } =
      ({ images := plainImages, deploy := { dirs := ["/deploy"], files := [] } },
        some (.invalidReference "invalid reference")) ∧
    emptyFS.Stat "/deploy" = .notExist ∧
    ({ dirs := ["/deploy"], files := [] } : FS).Stat "/deploy" = .ok ∧
    ({ dirs := ["/deploy"], files := [] } : FS) ≠ emptyFS := by
  decide


/-- C11, the code at a failing input: for the template
`steps = [{script = "main.js"}, 7]` and the interval override `5s`, the loop over
the generic list updates the table and leaves a nil map for the element `7`, a
step without `script` and without `interval`; the encoder then refuses the
document, and `deploy` returns its error and leaves the instance file empty. -/
theorem deploy_generic_step_list_leaves_nil_step :
    mergeTemplate genericStepsTemplate [] "/images/counter/lib/main.js" "5s" =
      .ok [("steps", .tables
        [some [("script", .str "/images/counter/lib/main.js"), ("interval", .str "5s")],
          none])] ∧
    ¬ StepOverwritten "/images/counter/lib/main.js" "5s" none ∧
    deploy genericStepsEnv exampleConfig "counter1" "ghcr.io/example/counter:1.0" [] "5s"
        "flows" { images := templateImages, deploy := emptyFS } =
      ({ images := templateImages,
         deploy := { dirs := ["/deploy"], files := [("/deploy/counter1.toml", [])] } },
        some (.encode "toml: cannot encode array with nil element")) := by
  refine ⟨rfl, ?_, by decide⟩
  rintro ⟨t, ht, _⟩
  cases ht

/-- C12, the code at a failing input: for the template `steps = "x"`, `keep = 1`
deployed without flags, the type switch matches no case and the nil slice is
stored under `steps`; `deploy` succeeds and the written document has the key
`keep` only, the template's `steps` entry is gone. -/
theorem deploy_drops_steps_that_is_not_a_list :
    mergeTemplate scalarStepsTemplate [] "/images/counter/lib/main.js" "" =
      .ok [("steps", .nilTables), ("keep", .int 1)] ∧
    field scalarStepsTemplate "steps" = some (.str "x") ∧
    field [("steps", Value.nilTables), ("keep", .int 1)] "steps" = none ∧
    field [("steps", Value.nilTables), ("keep", .int 1)] "keep" = some (.int 1) ∧
    deploy scalarStepsEnv exampleConfig "counter1" "ghcr.io/example/counter:1.0" [] ""
        "flows" { images := pipelineImages, deploy := emptyFS } =
      ({ images := pipelineImages,
         deploy := { dirs := ["/deploy"], files := [("/deploy/counter1.toml", [2])] } },
        none) := by
  refine ⟨rfl, rfl, rfl, rfl, by decide⟩


/-- C8, the code at a failing input: with an empty image cache, `deploy` hands
the image directory `/images` itself to `PullImage`, which materializes the
artifact there, and then fails to find the entrypoint under `/images/counter`,
the directory the `pull` command hands to `PullImage` for the same reference. -/
theorem deploy_pulls_into_image_dir :
    deploy exampleEnv exampleConfig "counter1" "ghcr.io/example/counter:1.0" [] "" "flows"
        { images := emptyFS, deploy := emptyFS } =
      ({ images := { dirs := ["/images"], files := [("/images/lib/main.js", [0])] },
         deploy := { dirs := ["/deploy"], files := [] } },
        some (.missingEntrypoint "/images/counter/lib/main.js")) ∧
    pullTarget exampleEnv exampleConfig "ghcr.io/example/counter:1.0" "" false =
      .ok ("/images/counter", "") ∧
    pull exampleEnv exampleConfig "ghcr.io/example/counter:1.0" "" false emptyFS =
      ({ dirs := ["/images/counter"], files := [("/images/counter/lib/main.js", [0])] },
        none) := by
  refine ⟨by decide, rfl, by decide⟩


/-! ### Credentials -/

theorem findInRegistries_first (pre : List RegistryCredential) (cred : RegistryCredential)
    (post : List RegistryCredential) (registry : String) (h : cred.Registry = registry)
    (hpre : ∀ x ∈ pre, x.Registry ≠ registry) :
    findInRegistries (pre ++ cred :: post) registry = some cred := by
  induction pre with
  | nil => simp [findInRegistries, h]
  | cons x xs ih =>
    have hx : x.Registry ≠ registry := hpre x (by simp)
    simp only [List.cons_append, findInRegistries, hx, if_false]
    exact ih (fun y hy => hpre y (by simp [hy]))

theorem findInRegistries_none (regs : List RegistryCredential) (registry : String)
    (h : ∀ x ∈ regs, x.Registry ≠ registry) : findInRegistries regs registry = none := by
  induction regs with
  | nil => rfl
  | cons x xs ih =>
    have hx : x.Registry ≠ registry := h x (by simp)
    simp only [findInRegistries, hx, if_false]
    exact ih (fun y hy => h y (by simp [hy]))

theorem findInRegistries_some (regs : List RegistryCredential) (registry : String)
    (cred : RegistryCredential) (h : findInRegistries regs registry = some cred) :
    cred ∈ regs ∧ cred.Registry = registry := by
  induction regs with
  | nil => simp [findInRegistries] at h
  | cons x xs ih =>
    by_cases hx : x.Registry = registry
    · simp only [findInRegistries, hx, if_true, Option.some.injEq] at h
      subst h
      exact ⟨by simp, hx⟩
    · simp only [findInRegistries, hx, if_false] at h
      exact ⟨by simp [(ih h).1], (ih h).2⟩

theorem hit_iff (r : StoreResult) :
    r.hit = true ↔ r.err = false ∧ r.Username ≠ "" ∧ r.Password ≠ "" := by
  simp [StoreResult.hit, and_assoc]

/-- C4: `FindCredential` follows the priority chain.  A Docker probe without
error and with non-empty username and password is returned; otherwise an ORAS
probe under the same condition; otherwise, whether the stores answered empty
credentials, returned an error or could not be opened, the first entry of
`Registries` whose `Registry` equals the host; otherwise `nil`. -/
theorem FindCredential_priority (stores : CredentialStores) (c : Config) (registry : String) :
    ((stores.LoadDockerCredentials registry).err = false ∧
        (stores.LoadDockerCredentials registry).Username ≠ "" ∧
        (stores.LoadDockerCredentials registry).Password ≠ "" →
      c.FindCredential stores registry =
        some { Registry := registry,
               Username := (stores.LoadDockerCredentials registry).Username,
               Password := (stores.LoadDockerCredentials registry).Password }) ∧
    (¬ ((stores.LoadDockerCredentials registry).err = false ∧
        (stores.LoadDockerCredentials registry).Username ≠ "" ∧
        (stores.LoadDockerCredentials registry).Password ≠ "") →
      (∀ credStoreGet, stores.NewStore = some credStoreGet →
        (credStoreGet registry).err = false ∧ (credStoreGet registry).Username ≠ "" ∧
          (credStoreGet registry).Password ≠ "" →
        c.FindCredential stores registry =
          some { Registry := registry, Username := (credStoreGet registry).Username,
                 Password := (credStoreGet registry).Password }) ∧
      ((∀ credStoreGet, stores.NewStore = some credStoreGet →
          ¬ ((credStoreGet registry).err = false ∧ (credStoreGet registry).Username ≠ "" ∧
            (credStoreGet registry).Password ≠ "")) →
        (∀ pre cred post, c.Registries = pre ++ cred :: post → cred.Registry = registry →
          (∀ x ∈ pre, x.Registry ≠ registry) →
          c.FindCredential stores registry = some cred) ∧
        ((∀ x ∈ c.Registries, x.Registry ≠ registry) →
          c.FindCredential stores registry = none))) := by
  constructor
  · intro hd
    have : (stores.LoadDockerCredentials registry).hit = true := (hit_iff _).mpr hd
    simp [Config.FindCredential, this]
  · intro hd
    have hmiss : (stores.LoadDockerCredentials registry).hit = false := by
      cases hh : (stores.LoadDockerCredentials registry).hit with
      | false => rfl
      | true => exact absurd ((hit_iff _).mp hh) hd
    constructor
    · intro g hg ho
      have : (g registry).hit = true := (hit_iff _).mpr ho
      simp [Config.FindCredential, hmiss, hg, this]
    · intro ho
      have hfall : c.FindCredential stores registry = findInRegistries c.Registries registry := by
        unfold Config.FindCredential
        simp only [hmiss, Bool.false_eq_true, if_false]
        cases hs : stores.NewStore with
        | none => rfl
        | some g =>
          have : (g registry).hit = false := by
            cases hh : (g registry).hit with
            | false => rfl
            | true => exact absurd ((hit_iff _).mp hh) (ho g hs)
          simp [this]
      rw [hfall]
      constructor
      · intro pre cred post hsplit hreg hpre
        rw [hsplit]
        exact findInRegistries_first pre cred post registry hreg hpre
      · intro hnone
        exact findInRegistries_none c.Registries registry hnone

/-- Witness for C4: both stores miss for `registry.example.com` (the Docker probe
returns an error, the ORAS store cannot be opened) and the static list has an
entry for that host after one for another host. -/
theorem FindCredential_priority_witness :
    ({ exampleConfig with
        Registries := [⟨"ghcr.io", "g", "h"⟩, ⟨"registry.example.com", "user", "secret"⟩,
          ⟨"registry.example.com", "other", "x"⟩] } : Config).FindCredential
      { LoadDockerCredentials := fun _ => ⟨"", "", true⟩, NewStore := none }
      "registry.example.com" = some ⟨"registry.example.com", "user", "secret"⟩ :=
  ((FindCredential_priority
      { LoadDockerCredentials := fun _ => ⟨"", "", true⟩, NewStore := none }
      { exampleConfig with
        Registries := [⟨"ghcr.io", "g", "h"⟩, ⟨"registry.example.com", "user", "secret"⟩,
          ⟨"registry.example.com", "other", "x"⟩] }
      "registry.example.com").2 (by simp)).2 (by simp) |>.1
    [⟨"ghcr.io", "g", "h"⟩] ⟨"registry.example.com", "user", "secret"⟩
    [⟨"registry.example.com", "other", "x"⟩] rfl rfl (by decide)

/-- C10 (as the code has it): a credential that `FindCredential` returns has a
non-empty username and a non-empty password when it comes from the Docker store
or the ORAS store; otherwise both stores missed and it is an entry of
`Registries` whose `Registry` equals the host, returned as configured. -/
theorem FindCredential_nonempty_from_stores (stores : CredentialStores) (c : Config)
    (registry : String) (cred : RegistryCredential)
    (h : c.FindCredential stores registry = some cred) :
    (cred.Registry = registry ∧ cred.Username ≠ "" ∧ cred.Password ≠ "") ∨
    ((stores.LoadDockerCredentials registry).hit = false ∧
      (∀ credStoreGet, stores.NewStore = some credStoreGet →
        (credStoreGet registry).hit = false) ∧
      cred ∈ c.Registries ∧ cred.Registry = registry) := by
  unfold Config.FindCredential at h
  cases hd : (stores.LoadDockerCredentials registry).hit with
  | true =>
    simp only [hd, if_true, Option.some.injEq] at h
    subst h
    exact Or.inl ⟨rfl, ((hit_iff _).mp hd).2⟩
  | false =>
    simp only [hd, Bool.false_eq_true, if_false] at h
    cases hs : stores.NewStore with
    | none =>
      simp only [hs] at h
      refine Or.inr ⟨rfl, ?_, findInRegistries_some _ _ _ h⟩
      intro g hg
      exact absurd hg (by simp)
    | some g =>
      simp only [hs] at h
      cases ho : (g registry).hit with
      | true =>
        simp only [ho, if_true, Option.some.injEq] at h
        subst h
        exact Or.inl ⟨rfl, ((hit_iff _).mp ho).2⟩
      | false =>
        simp only [ho, Bool.false_eq_true, if_false] at h
        refine Or.inr ⟨rfl, ?_, findInRegistries_some _ _ _ h⟩
        intro g' hg'
        have hgg : g = g' := Option.some.inj hg'
        subst hgg
        exact ho

/-- Witness for C10: the Docker store answers a username and a password. -/
theorem FindCredential_nonempty_from_stores_witness :
    ((⟨"ghcr.io", "user", "secret"⟩ : RegistryCredential).Registry = "ghcr.io" ∧
      (⟨"ghcr.io", "user", "secret"⟩ : RegistryCredential).Username ≠ "" ∧
      (⟨"ghcr.io", "user", "secret"⟩ : RegistryCredential).Password ≠ "") ∨
    (((⟨fun _ => ⟨"user", "secret", false⟩, none⟩ : CredentialStores).LoadDockerCredentials
        "ghcr.io").hit = false ∧
      (∀ credStoreGet,
        (⟨fun _ => ⟨"user", "secret", false⟩, none⟩ : CredentialStores).NewStore =
          some credStoreGet → (credStoreGet "ghcr.io").hit = false) ∧
      (⟨"ghcr.io", "user", "secret"⟩ : RegistryCredential) ∈ exampleConfig.Registries ∧
      (⟨"ghcr.io", "user", "secret"⟩ : RegistryCredential).Registry = "ghcr.io") :=
  FindCredential_nonempty_from_stores ⟨fun _ => ⟨"user", "secret", false⟩, none⟩ exampleConfig
    "ghcr.io" ⟨"ghcr.io", "user", "secret"⟩ (by decide)

/-- Counterexample to C10 as stated: both stores miss and the static list has an
entry for the host without username and password; `FindCredential` returns it. -/
theorem FindCredential_returns_empty_static_entry :
    ({ exampleConfig with Registries := [⟨"registry.example.com", "", ""⟩] }
        : Config).FindCredential
      { LoadDockerCredentials := fun _ => ⟨"", "", true⟩, NewStore := none }
      "registry.example.com" = some ⟨"registry.example.com", "", ""⟩ ∧
    ¬ ((⟨"registry.example.com", "", ""⟩ : RegistryCredential).Username ≠ "" ∧
      (⟨"registry.example.com", "", ""⟩ : RegistryCredential).Password ≠ "") := by
  decide


/-! ### Listing -/

theorem listRows_example : listRows exampleListEnv exampleConfig "/deploy" defaultColNames
    [⟨"bad.toml", false⟩, ⟨"dir.toml", true⟩, ⟨"good.toml", false⟩, ⟨"notes.txt", false⟩] =
    [["bad", "/deploy/bad.toml", "", "<invalid>", "<unknown>"],
     ["good", "/deploy/good.toml", "a/b, c/d", "counter", "1.0"]] := by decide

theorem Base_path : Base "/images/counter" = "counter" := by decide
theorem Base_root : Base "/" = "/" := by decide
theorem Base_trailing_slashes : Base "a/b//" = "b" := by decide
theorem Dir_Dir_script : Dir (Dir "/images/counter/lib/main.js") = "/images/counter" := by decide


/-- C6: `list` builds exactly one row, in directory order, for every entry that
is not a directory and whose name ends in `.toml`, and none for any other entry;
building the rows has no failing path.  A candidate that does not decode, or
decodes to an empty step list, gets the row with `topics = ""`,
`image = "<invalid>"` and `imageVersion = "<unknown>"`, under its own name and
path. -/
theorem listRows_one_row_per_toml_file (env : ListEnv) (cfg : Config) (deployDir : String)
    (colNames : List String) (files : List DirEntry) :
    listRows env cfg deployDir colNames files =
      (files.filter (fun f => !f.IsDir && HasSuffix f.Name ".toml")).map
        (fun f => colNames.map (instanceRow env cfg deployDir f).cell) ∧
    (∀ f, (env.DecodeFile (Join [deployDir, f.Name]) = none ∨
        ∃ data, env.DecodeFile (Join [deployDir, f.Name]) = some data ∧ data.Steps = []) →
      instanceRow env cfg deployDir f =
        { name := TrimSuffix f.Name ".toml", path := Join [unexpandedDeployDir cfg, f.Name],
          topics := "", image := "<invalid>", imageVersion := "<unknown>" }) := by
  constructor
  · induction files with
    | nil => rfl
    | cons f fs ih =>
      by_cases hc : (f.IsDir || !HasSuffix f.Name ".toml") = true
      · have hf : (!f.IsDir && HasSuffix f.Name ".toml") = false := by
          cases hd : f.IsDir <;> cases hs : HasSuffix f.Name ".toml" <;> simp_all
        simp only [listRows, hc, if_true, List.filter, hf]
        exact ih
      · have hf : (!f.IsDir && HasSuffix f.Name ".toml") = true := by
          cases hd : f.IsDir <;> cases hs : HasSuffix f.Name ".toml" <;> simp_all
        simp only [listRows, hc, if_false, List.filter, hf, List.map_cons]
        rw [ih]
        simp
  · intro f hf
    unfold instanceRow
    rcases hf with hnone | ⟨data, hsome, hsteps⟩
    · simp [hnone]
    · obtain ⟨steps, topics⟩ := data
      simp only at hsteps
      subst hsteps
      simp [hsome]


/-! ### Paths under `outputDir` -/

theorem splitSlash_ne_nil (cs : List Char) : splitSlash cs ≠ [] := by
  cases cs with
  | nil => simp [splitSlash]
  | cons c rest =>
    unfold splitSlash
    by_cases hc : c = '/'
    · simp [hc]
    · simp only [hc, if_false]
      cases splitSlash rest <;> simp

theorem splitSlash_append (a b : List Char) :
    splitSlash (a ++ '/' :: b) = splitSlash a ++ splitSlash b := by
  induction a with
  | nil => simp [splitSlash]
  | cons c cs ih =>
    by_cases hc : c = '/'
    · simp [splitSlash, hc, ih]
    · simp only [List.cons_append, splitSlash, hc, if_false]
      have ih' : splitSlash (cs.append ('/' :: b)) = splitSlash cs ++ splitSlash b := ih
      rw [ih']
      cases hs : splitSlash cs with
      | nil => exact absurd hs (splitSlash_ne_nil cs)
      | cons h t => simp

theorem containsDotDot_cons (c : Char) (cs : List Char) (h : containsDotDot cs = true) :
    containsDotDot (c :: cs) = true := by
  cases cs with
  | nil => simp [containsDotDot] at h
  | cons d rest => simp [containsDotDot, h]

theorem splitSlash_head (cs : List Char) (x : Char) (h' : List Char) (t : List (List Char))
    (hs : splitSlash cs = (x :: h') :: t) : ∃ rest, cs = x :: rest := by
  cases cs with
  | nil => simp [splitSlash] at hs
  | cons c rest =>
    unfold splitSlash at hs
    by_cases hc : c = '/'
    · simp [hc] at hs
    · simp only [hc, if_false] at hs
      cases hr : splitSlash rest with
      | nil =>
        simp only [hr, List.cons.injEq] at hs
        exact ⟨rest, by rw [hs.1.1]⟩
      | cons a b =>
        simp only [hr, List.cons.injEq] at hs
        exact ⟨rest, by rw [hs.1.1]⟩

theorem containsDotDot_of_elem (cs : List Char) (h : ['.', '.'] ∈ splitSlash cs) :
    containsDotDot cs = true := by
  induction cs with
  | nil => simp [splitSlash] at h
  | cons c rest ih =>
    unfold splitSlash at h
    by_cases hc : c = '/'
    · simp only [hc, if_true, List.mem_cons] at h
      rcases h with h | h
      · cases h
      · exact containsDotDot_cons c rest (ih h)
    · simp only [hc, if_false] at h
      cases hr : splitSlash rest with
      | nil => exact absurd hr (splitSlash_ne_nil rest)
      | cons a b =>
        simp only [hr, List.mem_cons] at h
        rcases h with h | h
        · simp only [List.cons.injEq] at h
          obtain ⟨hc1, ha⟩ := h
          obtain ⟨rest', hrest⟩ := splitSlash_head rest '.' [] b (by rw [hr, ← ha])
          subst hrest
          rw [← hc1]
          simp [containsDotDot]
        · exact containsDotDot_cons c rest (ih (by rw [hr]; simp [h]))

theorem splitSlash_no_slash (cs el : List Char) (h : el ∈ splitSlash cs) : '/' ∉ el := by
  induction cs generalizing el with
  | nil =>
    simp only [splitSlash, List.mem_singleton] at h
    subst h
    simp
  | cons c rest ih =>
    unfold splitSlash at h
    by_cases hc : c = '/'
    · simp only [hc, if_true, List.mem_cons] at h
      rcases h with h | h
      · subst h
        simp
      · exact ih el h
    · simp only [hc, if_false] at h
      cases hr : splitSlash rest with
      | nil => exact absurd hr (splitSlash_ne_nil rest)
      | cons a b =>
        simp only [hr, List.mem_cons] at h
        rcases h with h | h
        · subst h
          have ha : '/' ∉ a := ih a (by rw [hr]; simp)
          simp only [List.mem_cons, not_or]
          exact ⟨fun e => hc e.symm, ha⟩
        · exact ih el (by rw [hr]; simp [h])

theorem cleanStep_foldl_plain (rooted : Bool) (els stack : List (List Char))
    (h : ['.', '.'] ∉ els) :
    els.foldl (cleanStep rooted) stack =
      (els.filter (fun el => decide (el ≠ [] ∧ el ≠ ['.']))).reverse ++ stack := by
  induction els generalizing stack with
  | nil => simp
  | cons el rest ih =>
    have hel : el ≠ ['.', '.'] := fun e => h (by simp [e])
    have hrest : ['.', '.'] ∉ rest := fun e => h (by simp [e])
    simp only [List.foldl_cons]
    rw [ih _ hrest]
    by_cases hskip : el = [] ∨ el = ['.']
    · have hd : decide (el ≠ [] ∧ el ≠ ['.']) = false := by
        simp only [decide_eq_false_iff_not]
        rcases hskip with e | e <;> simp [e]
      simp [cleanStep, hskip, List.filter, hd]
    · have hd : decide (el ≠ [] ∧ el ≠ ['.']) = true := by
        simp only [decide_eq_true_eq]
        exact ⟨fun e => hskip (Or.inl e), fun e => hskip (Or.inr e)⟩
      simp [cleanStep, hskip, hel, List.filter, hd]

theorem isRooted_append (a b : List Char) (ha : a ≠ []) : isRooted (a ++ b) = isRooted a := by
  cases a with
  | nil => exact absurd rfl ha
  | cons c cs =>
    by_cases hc : c = '/'
    · subst hc
      rfl
    · have h1 : isRooted (c :: cs ++ b) = false := by
        unfold isRooted
        split
        · rename_i heq
          simp only [List.cons_append, List.cons.injEq] at heq
          exact absurd heq.1 hc
        · rfl
      have h2 : isRooted (c :: cs) = false := by
        unfold isRooted
        split
        · rename_i heq
          simp only [List.cons.injEq] at heq
          exact absurd heq.1 hc
        · rfl
      rw [h1, h2]

/-- For a non-empty `outputDir` and a name without `..`, the path
`filepath.Join(outputDir, name)` lies inside `outputDir`. -/
theorem Join_inside (outputDir name : String) (hdir : outputDir ≠ "")
    (hname : containsDotDot name.data = false) :
    Inside outputDir (Join [outputDir, name]) := by
  have hne : outputDir.data ≠ [] := by
    intro h
    apply hdir
    cases outputDir with
    | mk d =>
      simp only at h
      subst h
      rfl
  have hno : ['.', '.'] ∉ splitSlash name.data := by
    intro h
    rw [containsDotDot_of_elem name.data h] at hname
    cases hname
  refine ⟨(splitSlash name.data).filter (fun el => decide (el ≠ [] ∧ el ≠ ['.'])), ?_, rfl, ?_⟩
  · intro el hel
    rw [List.mem_filter] at hel
    obtain ⟨hmem, hd⟩ := hel
    simp only [decide_eq_true_eq] at hd
    exact ⟨hd.1, hd.2, fun e => hno (e ▸ hmem), splitSlash_no_slash name.data el hmem⟩
  · simp only [Join, List.map, joinChars, hne, if_false, joinSlash, cleanChars]
    rw [isRooted_append _ _ hne, splitSlash_append]
    congr 1
    simp only [cleanElems, List.foldl_append]
    rw [cleanStep_foldl_plain _ _ _ hno]
    simp


/-! ### Tarball extraction -/

theorem LoadTarballImage_example : LoadTarballImage noFaults
    (.ok ⟨[⟨TypeReg, "lib/main.js", [1, 2]⟩, ⟨TypeReg, "../../etc/passwd", [9]⟩,
      ⟨TypeDir, "lib", []⟩, ⟨TypeReg, "./lib//main.js", [3]⟩, ⟨TypeReg, "a..b", [4]⟩], none⟩)
    "out" [] = ([("out/lib/main.js", [3])], none) := by decide

theorem Dir_nested : Dir "out/lib/main.js" = "out/lib" := by decide
theorem Dir_plain : Dir "main.js" = "." := by decide
theorem Dir_rooted : Dir "/main.js" = "/" := by decide
theorem containsDotDot_inside_element : containsDotDot "a..b".data = true := by decide
theorem hasDotDotElem_inside_element : ¬ hasDotDotElem "a..b" := by decide


theorem extractEntry_frame (os : Faults) (outputDir : String) (fs : Files) (hdr : Entry)
    (p : String)
    (hp : hdr.Typeflag = TypeReg → containsDotDot hdr.Name.data = false →
      Join [outputDir, hdr.Name] ≠ p) :
    get (extractEntry os outputDir fs hdr).1 p = get fs p := by
  unfold extractEntry
  by_cases ht : hdr.Typeflag = TypeReg
  · by_cases hn : containsDotDot hdr.Name.data = true
    · simp [ht, hn]
    · have hn' : containsDotDot hdr.Name.data = false := by simpa using hn
      have hne : p ≠ Join [outputDir, hdr.Name] := fun e => hp ht hn' e.symm
      simp only [ht, ne_eq, not_true_eq_false, if_false, hn']
      by_cases h1 : os.MkdirAll fs (Dir (Join [outputDir, hdr.Name])) = true
      · simp [h1]
      · by_cases h2 : os.Create fs (Join [outputDir, hdr.Name]) = true
        · simp [h1, h2]
        · simp only [h1, h2, if_false]
          cases os.Copy (set fs (Join [outputDir, hdr.Name]) []) (Join [outputDir, hdr.Name])
              hdr.Data with
          | some written => simp [get_set_ne _ _ _ _ hne]
          | none => simp [get_set_ne _ _ _ _ hne]
  · simp [ht]

theorem extractEntry_written (os : Faults) (outputDir : String) (fs : Files) (hdr : Entry)
    (h : (extractEntry os outputDir fs hdr).2 = none) (ht : hdr.Typeflag = TypeReg)
    (hn : containsDotDot hdr.Name.data = false) :
    get (extractEntry os outputDir fs hdr).1 (Join [outputDir, hdr.Name]) = some hdr.Data := by
  unfold extractEntry at h ⊢
  simp only [ht, ne_eq, not_true_eq_false, if_false, hn] at h ⊢
  by_cases h1 : os.MkdirAll fs (Dir (Join [outputDir, hdr.Name])) = true
  · simp [h1] at h
  · by_cases h2 : os.Create fs (Join [outputDir, hdr.Name]) = true
    · simp [h1, h2] at h
    · simp only [h1, h2, if_false] at h ⊢
      cases h3 : os.Copy (set fs (Join [outputDir, hdr.Name]) [])
          (Join [outputDir, hdr.Name]) hdr.Data with
      | some written => simp [h3] at h
      | none => simp [get_set_same]

theorem extract_frame (os : Faults) (outputDir : String) (readErr : Option String)
    (entries : List Entry) (fs : Files) (p : String)
    (hp : ∀ e ∈ entries, e.Typeflag = TypeReg → containsDotDot e.Name.data = false →
      Join [outputDir, e.Name] ≠ p) :
    get (extract os outputDir readErr fs entries).1 p = get fs p := by
  induction entries generalizing fs with
  | nil => rfl
  | cons hdr rest ih =>
    have h1 := extractEntry_frame os outputDir fs hdr p (hp hdr (by simp))
    unfold extract
    cases hr : extractEntry os outputDir fs hdr with
    | mk fs' r =>
      rw [hr] at h1
      cases r with
      | some e => exact h1
      | none =>
        simp only
        rw [ih fs' (fun e he => hp e (by simp [he]))]
        exact h1

theorem extract_append (os : Faults) (outputDir : String) (readErr : Option String)
    (pre rest : List Entry) (fs : Files)
    (h : (extract os outputDir readErr fs (pre ++ rest)).2 = none) :
    extract os outputDir readErr fs (pre ++ rest) =
      extract os outputDir readErr (extract os outputDir none fs pre).1 rest := by
  induction pre generalizing fs with
  | nil => rfl
  | cons hdr pre' ih =>
    simp only [List.cons_append, extract] at h ⊢
    cases hr : extractEntry os outputDir fs hdr with
    | mk fs' r =>
      rw [hr] at h
      cases r with
      | some e => simp at h
      | none => exact ih fs' h

/-- C13 (as the code has it): when `LoadTarballImage` returns no error, the
entries materialized are exactly the regular-file entries whose name does not
contain the two characters `..`: such an entry is at
`filepath.Join(outputDir, name)` with its bytes unless a later such entry has
the same path, and a path that no such entry is joined to holds what it held
before, so that no other entry is written. -/
theorem LoadTarballImage_materializes (os : Faults) (tr : TarStream) (outputDir : String)
    (fs : Files)
    (h : (LoadTarballImage os (.ok tr) outputDir fs).2 = none) :
    (∀ pre e post, tr.entries = pre ++ e :: post →
      e.Typeflag = TypeReg → containsDotDot e.Name.data = false →
      (∀ e' ∈ post, e'.Typeflag = TypeReg → containsDotDot e'.Name.data = false →
        Join [outputDir, e'.Name] ≠ Join [outputDir, e.Name]) →
      get (LoadTarballImage os (.ok tr) outputDir fs).1 (Join [outputDir, e.Name]) =
        some e.Data) ∧
    (∀ p, (∀ e ∈ tr.entries, e.Typeflag = TypeReg → containsDotDot e.Name.data = false →
        Join [outputDir, e.Name] ≠ p) →
      get (LoadTarballImage os (.ok tr) outputDir fs).1 p = get fs p) := by
  simp only [LoadTarballImage] at h ⊢
  constructor
  · intro pre e post hsplit ht hn hlater
    rw [hsplit] at h ⊢
    have happ := extract_append os outputDir tr.readErr pre (e :: post) fs h
    rw [happ] at h ⊢
    generalize (extract os outputDir none fs pre).1 = fs1 at h ⊢
    simp only [extract] at h ⊢
    have hw := extractEntry_written os outputDir fs1 e
    cases hr : extractEntry os outputDir fs1 e with
    | mk fs2 r =>
      rw [hr] at h hw
      cases r with
      | some err => simp at h
      | none =>
        simp only
        rw [extract_frame os outputDir tr.readErr post fs2 _ hlater]
        exact hw rfl ht hn
  · intro p hp
    exact extract_frame os outputDir tr.readErr tr.entries fs p hp


/-- Witness for C13: `lib/main.js` is extracted although a later entry of the
archive is named `../x`. -/
theorem LoadTarballImage_materializes_witness :
    get (LoadTarballImage noFaults
        (.ok ⟨[⟨TypeReg, "lib/main.js", [1, 2]⟩, ⟨TypeReg, "../x", [9]⟩], none⟩) "out" []).1
      (Join ["out", "lib/main.js"]) = some [1, 2] :=
  (LoadTarballImage_materializes noFaults
    ⟨[⟨TypeReg, "lib/main.js", [1, 2]⟩, ⟨TypeReg, "../x", [9]⟩], none⟩ "out" []
    (by decide)).1 [] ⟨TypeReg, "lib/main.js", [1, 2]⟩ [⟨TypeReg, "../x", [9]⟩] rfl rfl
    (by decide) (by decide)

/-- Counterexample to C13 as stated: the regular file `a..b` has no path element
equal to `..`, the archive is extracted without error, and nothing is written
at `out/a..b`. -/
theorem LoadTarballImage_skips_name_with_two_dots :
    (⟨TypeReg, "a..b", [1]⟩ : Entry).Typeflag = TypeReg ∧
    ¬ hasDotDotElem (⟨TypeReg, "a..b", [1]⟩ : Entry).Name ∧
    (LoadTarballImage noFaults (.ok ⟨[⟨TypeReg, "a..b", [1]⟩], none⟩) "out" []).2 = none ∧
    get (LoadTarballImage noFaults (.ok ⟨[⟨TypeReg, "a..b", [1]⟩], none⟩) "out" []).1
      (Join ["out", "a..b"]) = none := by
  decide


theorem extractEntry_dotdot (os : Faults) (outputDir : String) (fs : Files) (hdr : Entry)
    (h : containsDotDot hdr.Name.data = true) :
    extractEntry os outputDir fs hdr = (fs, none) := by
  unfold extractEntry
  by_cases ht : hdr.Typeflag = TypeReg <;> simp [ht, h]

theorem extract_filter_dotdot (os : Faults) (outputDir : String) (readErr : Option String)
    (entries : List Entry) (fs : Files) :
    extract os outputDir readErr fs entries =
      extract os outputDir readErr fs
        (entries.filter (fun e => !containsDotDot e.Name.data)) := by
  induction entries generalizing fs with
  | nil => rfl
  | cons hdr rest ih =>
    by_cases h : containsDotDot hdr.Name.data = true
    · simp only [List.filter, h, Bool.not_true]
      rw [← ih fs]
      simp only [extract, extractEntry_dotdot os outputDir fs hdr h]
    · have h' : containsDotDot hdr.Name.data = false := by simpa using h
      simp only [List.filter, h', Bool.not_false, extract]
      cases extractEntry os outputDir fs hdr with
      | mk fs' r =>
        cases r with
        | some e => rfl
        | none => exact ih fs'

/-- C2: an entry whose name contains `..` is skipped without an error and
without a write, and extracting an archive returns the same error and leaves the
same files as extracting the archive with every such entry removed. -/
theorem LoadTarballImage_ignores_dotdot_entries (os : Faults) (tr : TarStream)
    (outputDir : String) (fs : Files) :
    (∀ hdr files, containsDotDot hdr.Name.data = true →
      extractEntry os outputDir files hdr = (files, none)) ∧
    LoadTarballImage os (.ok tr) outputDir fs =
      LoadTarballImage os
        (.ok { tr with entries := tr.entries.filter (fun e => !containsDotDot e.Name.data) })
        outputDir fs :=
  ⟨fun hdr files h => extractEntry_dotdot os outputDir files hdr h,
    extract_filter_dotdot os outputDir tr.readErr tr.entries fs⟩

theorem extract_changed (os : Faults) (outputDir : String) (readErr : Option String)
    (entries : List Entry) (fs : Files) (p : String)
    (h : get (extract os outputDir readErr fs entries).1 p ≠ get fs p) :
    ∃ e ∈ entries, e.Typeflag = TypeReg ∧ containsDotDot e.Name.data = false ∧
      Join [outputDir, e.Name] = p := by
  by_contra hno
  apply h
  apply extract_frame
  intro e he ht hn hp
  exact hno ⟨e, he, ht, hn, hp⟩

/-- C1 (as the code has it): for a non-empty `outputDir`, every path that
`LoadTarballImage` creates or writes lies inside `outputDir`.  The paths handed
to `os.Create` are `filepath.Join(outputDir, name)` for the regular-file entries
whose name does not contain `..`, each of them the cleaned `outputDir` followed
by further elements that are not `..`; a path whose contents differ afterwards
is one of them; and an entry with a path element `..` is skipped. -/
theorem LoadTarballImage_writes_inside (os : Faults) (opened : Except String TarStream)
    (outputDir : String) (fs : Files) (hdir : outputDir ≠ "") :
    (∀ e : Entry, e.Typeflag = TypeReg → containsDotDot e.Name.data = false →
      Inside outputDir (Join [outputDir, e.Name])) ∧
    (∀ p, get (LoadTarballImage os opened outputDir fs).1 p ≠ get fs p →
      Inside outputDir p) ∧
    (∀ e : Entry, ∀ files, hasDotDotElem e.Name →
      extractEntry os outputDir files e = (files, none)) := by
  refine ⟨fun e _ hn => Join_inside outputDir e.Name hdir hn, ?_, ?_⟩
  · intro p hp
    cases opened with
    | error err => exact absurd rfl hp
    | ok tr =>
      obtain ⟨e, _, _, hn, rfl⟩ := extract_changed os outputDir tr.readErr tr.entries fs p hp
      exact Join_inside outputDir e.Name hdir hn
  · intro e files he
    exact extractEntry_dotdot os outputDir files e (containsDotDot_of_elem e.Name.data he)

/-- Witness for C1: an archive with `lib/main.js`, `../../etc/passwd` and
`/etc/passwd`, extracted into `out`. -/
theorem LoadTarballImage_writes_inside_witness :
    LoadTarballImage noFaults
        (.ok ⟨[⟨TypeReg, "lib/main.js", [1]⟩, ⟨TypeReg, "../../etc/passwd", [2]⟩,
          ⟨TypeReg, "/etc/passwd", [3]⟩], none⟩) "out" [] =
      ([("out/lib/main.js", [1]), ("out/etc/passwd", [3])], none) ∧
    Inside "out" "out/etc/passwd" :=
  ⟨by decide, (LoadTarballImage_writes_inside noFaults
      (.ok ⟨[⟨TypeReg, "lib/main.js", [1]⟩, ⟨TypeReg, "../../etc/passwd", [2]⟩,
        ⟨TypeReg, "/etc/passwd", [3]⟩], none⟩) "out" [] (by decide)).2.1 "out/etc/passwd"
      (by decide)⟩

/-- Counterexample to C1 as stated: with the empty string as `outputDir`, the
regular-file entry named `/etc/passwd` is written at `/etc/passwd`, a rooted path,
while the cleaned `outputDir` is the relative path `.`. -/
theorem LoadTarballImage_empty_outputDir_absolute_name :
    Join ["", "/etc/passwd"] = "/etc/passwd" ∧
    LoadTarballImage noFaults (.ok ⟨[⟨TypeReg, "/etc/passwd", [1]⟩], none⟩) "" [] =
      ([("/etc/passwd", [1])], none) ∧
    Clean "" = "." ∧
    ¬ Inside "" "/etc/passwd" := by
  refine ⟨by decide, by decide, by decide, ?_⟩
  rintro ⟨more, hmore, _, hp⟩
  have hp' : ['/', 'e', 't', 'c', '/', 'p', 'a', 's', 's', 'w', 'd'] =
      renderPath false ([] ++ more) := hp
  cases more with
  | nil => simp [renderPath] at hp'
  | cons el rest =>
    obtain ⟨hne, _, _, hslash⟩ := hmore el (by simp)
    cases el with
    | nil => exact hne rfl
    | cons c cs =>
      have hc : c ≠ '/' := fun e => hslash (by simp [e])
      cases rest with
      | nil =>
        simp only [List.nil_append, renderPath, joinSlash, Bool.false_eq_true, if_false,
          List.cons.injEq] at hp'
        exact hc hp'.1.symm
      | cons el2 rest2 =>
        simp only [List.nil_append, renderPath, joinSlash, Bool.false_eq_true, if_false,
          List.cons_append, List.cons.injEq] at hp'
        exact hc hp'.1.symm

/-- C14: for a non-empty column selection and rows of that many cells, the table
keeps the first `k` columns and the first `k` cells of every row, with
`1 ≤ k ≤ len(colNames)`; `k` is the largest number of leading columns whose
total width fits `maxWidth`, or `1` when no number of leading columns fits. -/
theorem fitColumns_keeps_longest_fitting_prefix (colNames : List String)
    (rows : List (List String)) (maxWidth : Int) (hne : colNames ≠ [])
    (hrows : ∀ r ∈ rows, r.length = colNames.length) :
    ∃ widths k, colWidths colNames rows = some widths ∧
      fitColumns colNames rows maxWidth =
        some (k, { header := colNames.take k, rows := rows.map (List.take k) }) ∧
      1 ≤ k ∧ k ≤ colNames.length ∧
      ((prefixWidth widths k ≤ maxWidth ∧
          ∀ j, k < j → j ≤ colNames.length → maxWidth < prefixWidth widths j) ∨
        (k = 1 ∧ ∀ j, 1 ≤ j → j ≤ colNames.length → maxWidth < prefixWidth widths j)) := by
  obtain ⟨widths, hw, hlen⟩ := colWidths_length_aux rows (initWidths colNames)
    (fun r hr => by rw [hrows r hr]; simp [initWidths])
  have hlen' : widths.length = colNames.length := by rw [hlen]; simp [initWidths]
  have hpos : 1 ≤ colNames.length := by
    cases colNames with
    | nil => exact absurd rfl hne
    | cons c cs => simp
  obtain ⟨a, b, c, d⟩ := shrink_spec widths maxWidth colNames.length hpos (by omega)
  refine ⟨widths, shrink widths maxWidth colNames.length (prefixWidth widths colNames.length),
    hw, ?_, a, b, ?_⟩
  · unfold fitColumns
    have hw' : colWidths colNames rows = some widths := hw
    rw [hw']
    simp only [Option.map_some']
    rw [initialTotal_eq colNames widths hlen']
  · rcases c with c | c
    · exact Or.inl ⟨c, d⟩
    · by_cases hfit : prefixWidth widths 1 ≤ maxWidth
      · left
        rw [c]
        refine ⟨hfit, ?_⟩
        intro j hj hjn
        exact d j (by omega) hjn
      · right
        refine ⟨c, ?_⟩
        intro j hj hjn
        by_cases hj1 : j = 1
        · subst hj1; omega
        · exact d j (by omega) hjn

/-- Witness for C14: two columns of width 6 and a maximum width of 8 keep one column. -/
theorem fitColumns_keeps_longest_fitting_prefix_witness :
    ∃ widths k, colWidths ["name", "path"] [["a", "b"]] = some widths ∧
      fitColumns ["name", "path"] [["a", "b"]] 8 =
        some (k, { header := ["name", "path"].take k,
                   rows := [["a", "b"]].map (List.take k) }) ∧
      1 ≤ k ∧ k ≤ ["name", "path"].length ∧
      ((prefixWidth widths k ≤ 8 ∧
          ∀ j, k < j → j ≤ ["name", "path"].length → 8 < prefixWidth widths j) ∨
        (k = 1 ∧ ∀ j, 1 ≤ j → j ≤ ["name", "path"].length → 8 < prefixWidth widths j)) :=
  fitColumns_keeps_longest_fitting_prefix ["name", "path"] [["a", "b"]] 8
    (by decide) (by decide)

theorem fitColumns_narrow : fitColumns ["name", "path"] [["a", "b"]] 8 =
    some (1, { header := ["name"], rows := [["a"]] }) := by decide
theorem fitColumns_wide : fitColumns ["name", "path"] [["a", "bbbbbbbbbb"]] 30 =
    some (2, { header := ["name", "path"], rows := [["a", "bbbbbbbbbb"]] }) := by decide
theorem fitColumns_negative_width : fitColumns ["name", "path"] [["a", "b"]] (-3) =
    some (1, { header := ["name"], rows := [["a"]] }) := by decide

end TedgeOscar
